import Mathlib

/-!
# Syslog-Error-Scraper: a verification development

Shallow embedding of `main.go`: the pattern checks and the line scanner
(`filterFile2`), the log-file locator (`Scraper.ScrapeFiles`, `cmpLogFiles`) and
the reporting loop of `main`.

Library code the program calls (`regexp`, `bufio.Scanner`, `path/filepath`,
`slices`, `strings`) is modelled from its documented behaviour:

* `regexp`: the fragment of the syntax the five patterns use (literals, `.`, `\w`,
  `\d`, `^`, `$`, and the repetitions `*`, `+`, `?`, and a one-digit count); a
  pattern outside the fragment does not compile.
* `bufio.Scanner`: an opened file is the list of lines the scanner delivers and the
  final value of `scanner.Err()`.
* `path/filepath` (Unix): `Clean`, `Join`, `Split`, `Match` and `Glob` follow the
  library, loops bounded by the length of their input; the file system is the
  parameter `FileSystem`.
* `strings.ToLower`: ASCII is lowered as Go does, the Unicode case tables beyond ASCII
  are the parameter `tbl`.
* `slices.SortFunc`: the insertion sort Go runs on short slices; the results about the
  program use only that it returns a sorted rearrangement.
* Go `int`: the field `Count` is an integer; `filterFile2` is given with the increment
  on unbounded integers and, as `filterFile2Wrap`, with the increment of a 64-bit `int`,
  which wraps around at 2^63 - 1. The two agree below that limit
  (`filterFile2Wrap_eq_filterFile2`).
-/

namespace SyslogScraper

set_option maxRecDepth 100000

/-! ## regexp (the fragment of RE2 syntax the five patterns are written in) -/

/-- One-character matchers of the pattern language. -/
inductive Atom where
  | lit (c : Char)
  | anyNotNL
  | word
  | digit
  deriving DecidableEq, Repr

/-- An element of a compiled pattern: an anchor or a repeated one-character matcher
`a{lo,hi}` (`hi = none` is unbounded). -/
inductive Item where
  | bol
  | eol
  | rep (a : Atom) (lo : Nat) (hi : Option Nat)
  deriving DecidableEq, Repr

/-- A compiled regular expression (`*regexp.Regexp`): a sequence of items. -/
structure Regexp where
  items : List Item
  deriving DecidableEq, Repr

/-- Go's `\d` class. -/
def isDigitRune (c : Char) : Bool := decide ('0' ≤ c) && decide (c ≤ '9')

/-- Go's `\w` class: `[0-9A-Za-z_]`. -/
def isWordRune (c : Char) : Bool :=
  isDigitRune c || (decide ('A' ≤ c) && decide (c ≤ 'Z')) ||
    (decide ('a' ≤ c) && decide (c ≤ 'z')) || c == '_'

/-- Whether a one-character matcher accepts a rune (`.` excludes the newline). -/
def Atom.test : Atom → Char → Bool
  | .lit c, x => x == c
  | .anyNotNL, x => x != '\n'
  | .word, x => isWordRune x
  | .digit, x => isDigitRune x

/-- Tokens of the pattern syntax. -/
inductive Tok where
  | atom (a : Atom)
  | bol
  | eol
  | star
  | plus
  | quest
  | count (n : Nat)
  deriving DecidableEq, Repr

/-- Runes that are punctuation with a meaning in the pattern syntax. -/
def isSpecialRune (c : Char) : Bool :=
  "\\.+*?()|[]\x7b\x7d^$".toList.contains c

/-- Lexer of the pattern syntax; `none` outside the supported fragment
(groups, alternation, bracket classes, ranges `\x7bn,m\x7d`, other escapes). -/
def tokenize : List Char → Option (List Tok)
  | [] => some []
  | '\\' :: 'w' :: r => (tokenize r).map (Tok.atom .word :: ·)
  | '\\' :: 'd' :: r => (tokenize r).map (Tok.atom .digit :: ·)
  | '\\' :: c :: r =>
      if isSpecialRune c then (tokenize r).map (Tok.atom (.lit c) :: ·) else none
  | '{' :: d :: '}' :: r =>
      if isDigitRune d then (tokenize r).map (Tok.count (d.toNat - '0'.toNat) :: ·) else none
  | c :: r =>
      if c == '^' then (tokenize r).map (Tok.bol :: ·)
      else if c == '$' then (tokenize r).map (Tok.eol :: ·)
      else if c == '.' then (tokenize r).map (Tok.atom .anyNotNL :: ·)
      else if c == '*' then (tokenize r).map (Tok.star :: ·)
      else if c == '+' then (tokenize r).map (Tok.plus :: ·)
      else if c == '?' then (tokenize r).map (Tok.quest :: ·)
      else if isSpecialRune c then none
      else (tokenize r).map (Tok.atom (.lit c) :: ·)

/-- Attach each repetition operator to the matcher before it. -/
def build : List Tok → Option (List Item)
  | [] => some []
  | .bol :: r => (build r).map (Item.bol :: ·)
  | .eol :: r => (build r).map (Item.eol :: ·)
  | .atom a :: .star :: r => (build r).map (Item.rep a 0 none :: ·)
  | .atom a :: .plus :: r => (build r).map (Item.rep a 1 none :: ·)
  | .atom a :: .quest :: r => (build r).map (Item.rep a 0 (some 1) :: ·)
  | .atom a :: .count n :: r => (build r).map (Item.rep a n (some n) :: ·)
  | .atom a :: r => (build r).map (Item.rep a 1 (some 1) :: ·)
  | _ => none

/-- Model of `regexp.Compile`; `none` is a compile error. -/
def Compile (expr : String) : Option Regexp :=
  ((tokenize expr.toList).bind build).map Regexp.mk

/-- Model of `regexp.MustCompile`; `none` stands for the panic. -/
def MustCompile (expr : String) : Option Regexp := Compile expr

/-- Repetition `p{lo,hi}` followed by the continuation `k`, at offset `pos`. -/
def repLoop (p : Char → Bool) (k : Nat → List Char → Bool) :
    Nat → Option Nat → Nat → List Char → Bool
  | lo, _, pos, [] => lo == 0 && k pos []
  | lo, hi, pos, c :: cs =>
      (lo == 0 && k pos (c :: cs)) ||
        (hi != some 0 && p c && repLoop p k (lo - 1) (hi.map (· - 1)) (pos + 1) cs)

/-- Whether the items match a prefix of the text `s`, which starts at offset `pos`. -/
def matchFrom : List Item → Nat → List Char → Bool
  | [], _, _ => true
  | .bol :: r, pos, s => pos == 0 && matchFrom r pos s
  | .eol :: r, pos, s => s.isEmpty && matchFrom r pos s
  | .rep a lo hi :: r, pos, s => repLoop a.test (matchFrom r) lo hi pos s

/-- Try every start offset (a match may begin anywhere in the text). -/
def searchFrom (re : List Item) : Nat → List Char → Bool
  | pos, [] => matchFrom re pos []
  | pos, c :: cs => matchFrom re pos (c :: cs) || searchFrom re (pos + 1) cs

/-- Model of `(*Regexp).MatchString`: whether the text contains a match. -/
def Regexp.MatchString (re : Regexp) (s : String) : Bool :=
  searchFrom re.items 0 s.toList

/-! ## constants of main.go -/

def currentLogFilePattern : String := "syslog"

def uncompressedLogFilePattern : String := "syslog.[0-9]"

def compressedLogFilePattern : String := "syslog.[0-9].gz"

def multivpRegex : String :=
  "^\\w{3} \\d{2} \\d{2}:\\d{2}:\\d{2} hardware-\\d+ docker-compose.*vision_pipeline.*address already in use"

def undistortRegex : String :=
  "^\\w{3} \\d{2} \\d{2}:\\d{2}:\\d{2} hardware-\\d+ docker-compose.*vision_pipeline.*perspective_transform config error. TransformationType needs to be DISTORTED OR UNDISTORTED"

def cartesianRegex : String :=
  "^\\w{3} \\d{2} \\d{2}:\\d{2}:\\d{2} hardware-\\d+ docker-compose.*vision_pipeline.*near miss calculator requires perspective transform's"

def gpsRegex : String :=
  "^\\w{3} \\d{2} \\d{2}:\\d{2}:\\d{2} hardware-\\d+ docker-compose.*vision_pipeline.*error when excuting the template with pipelineValues: template: gstreamer_inference_sub_pipeline:26:52: executing \"gstreamer_inference_sub_pipeline\" at <.Sub.latitude>"

def kafkaRegex : String :=
  "^.*Timed out \\d+ in-flight, \\d+ retry-queued, \\d+ out-queue, \\d+ partially-sent requests$"

/-! ## the pattern scanner -/

/-- The struct `PatternCheck` of main.go. `Count` is a Go `int`. The scanner is given
twice below: `checkLine` ... `scanFiles` add one to `Count` as an integer without bound,
which is what a run does as long as fewer than 2^63 lines match a pattern;
`checkLineWrap` ... `scanFilesWrap` are the same code with the 64-bit wrap-around of
`Count++`, for the statements about every value a `Count` may enter with. -/
structure PatternCheck where
  Pattern : Regexp
  ErrorMessage : String
  Count : Int
  ExampleLine : String
  deriving DecidableEq, Repr

/-- What a `bufio.Scanner` over an opened file delivers: the tokens `scanner.Text()`
returns while `scanner.Scan()` is true, and the value of `scanner.Err()` afterwards. -/
structure ScannedFile where
  lines : List String
  err : Option String
  deriving DecidableEq, Repr

/-- The file system as the program observes it. `openFile` is `os.Open` followed by the
line scanner (an error is the open error); `readDir` gives the entry names of a
directory (empty when the path is not a readable directory); `lstat` tells whether
`os.Lstat` succeeds on a path. -/
structure FileSystem where
  openFile : String → Except String ScannedFile
  readDir : String → List String
  lstat : String → Bool

/-- Body of the inner loop of `filterFile2` for one check and one line, `Count++` on
unbounded integers. -/
def checkLine (line : String) (c : PatternCheck) : PatternCheck :=
  if c.Pattern.MatchString line then
    { c with
      Count := c.Count + 1
      ExampleLine := if c.ExampleLine = "" then line else c.ExampleLine }
  else c

/-- The inner loop `for i := range checks` for one line: every entry is updated in place. -/
def scanLine (checks : List PatternCheck) (line : String) : List PatternCheck :=
  checks.map (checkLine line)

/-- The loop `for scanner.Scan()` over the delivered lines. -/
def scanLines (lines : List String) (checks : List PatternCheck) : List PatternCheck :=
  lines.foldl scanLine checks

/-- The function `filterFile2`: the checks slice after the call and the returned error. -/
def filterFile2 (fs : FileSystem) (filePath : String) (checks : List PatternCheck) :
    List PatternCheck × Option String :=
  match fs.openFile filePath with
  | .error err => (checks, some ("failed to open file: " ++ err))
  | .ok file =>
      let checks := scanLines file.lines checks
      match file.err with
      | some err => (checks, some ("error reading file: " ++ err))
      | none => (checks, none)

/-- The loop `for _, filename := range s.logFilenames` of `main`: an error of
`filterFile2` is logged and the loop goes on. -/
def scanFiles (fs : FileSystem) (files : List String) (checks : List PatternCheck) :
    List PatternCheck :=
  files.foldl (fun cs filename => (filterFile2 fs filename cs).1) checks

/-! ### the scanner with `Count` as a 64-bit `int` -/

/-- Largest value of a Go `int` on a 64-bit platform (`math.MaxInt`). -/
def maxInt : Int := 9223372036854775807

/-- Smallest value of a Go `int` on a 64-bit platform (`math.MinInt`). -/
def minInt : Int := -9223372036854775808

/-- Reduction of an integer to the range of a 64-bit `int` (two's complement). -/
def wrapInt (x : Int) : Int := (x - minInt) % 18446744073709551616 + minInt

/-- The statement `checks[i].Count++` on a 64-bit `int`: past `maxInt` the value wraps
around to `minInt`. -/
def incInt (x : Int) : Int := wrapInt (x + 1)

/-- Body of the inner loop of `filterFile2` for one check and one line, `Count++` on a
64-bit `int`. -/
def checkLineWrap (line : String) (c : PatternCheck) : PatternCheck :=
  if c.Pattern.MatchString line then
    { c with
      Count := incInt c.Count
      ExampleLine := if c.ExampleLine = "" then line else c.ExampleLine }
  else c

/-- The inner loop `for i := range checks` for one line, `Count++` on a 64-bit `int`. -/
def scanLineWrap (checks : List PatternCheck) (line : String) : List PatternCheck :=
  checks.map (checkLineWrap line)

/-- The loop `for scanner.Scan()` over the delivered lines, `Count++` on a 64-bit `int`. -/
def scanLinesWrap (lines : List String) (checks : List PatternCheck) : List PatternCheck :=
  lines.foldl scanLineWrap checks

/-- The function `filterFile2` with `Count++` on a 64-bit `int`: the checks slice after
the call and the returned error. -/
def filterFile2Wrap (fs : FileSystem) (filePath : String) (checks : List PatternCheck) :
    List PatternCheck × Option String :=
  match fs.openFile filePath with
  | .error err => (checks, some ("failed to open file: " ++ err))
  | .ok file =>
      let checks := scanLinesWrap file.lines checks
      match file.err with
      | some err => (checks, some ("error reading file: " ++ err))
      | none => (checks, none)

/-- The loop `for _, filename := range s.logFilenames` of `main` with `Count++` on a
64-bit `int`. -/
def scanFilesWrap (fs : FileSystem) (files : List String) (checks : List PatternCheck) :
    List PatternCheck :=
  files.foldl (fun cs filename => (filterFile2Wrap fs filename cs).1) checks

/-! ## strings, slices -/

/-- The function `unicode.ToLower`: ASCII letters are shifted, other ASCII runes are kept;
beyond ASCII the Unicode case tables decide, which are the parameter `tbl`. -/
def unicodeToLower (tbl : Char → Char) (r : Char) : Char :=
  if r.toNat ≤ 127 then
    if 'A' ≤ r ∧ r ≤ 'Z' then Char.ofNat (r.toNat + ('a'.toNat - 'A'.toNat)) else r
  else tbl r

/-- The function `strings.ToLower`: every rune mapped to lower case. -/
def ToLower (tbl : Char → Char) (s : String) : String :=
  String.mk (s.toList.map (unicodeToLower tbl))

/-- Lexicographic `a < b` on rune sequences (the order of the UTF-8 bytes Go compares). -/
def lexLt : List Char → List Char → Bool
  | [], [] => false
  | [], _ :: _ => true
  | _ :: _, [] => false
  | a :: as, b :: bs => if a < b then true else if b < a then false else lexLt as bs

/-- The function `strings.Compare`: three-way lexicographic comparison. -/
def Compare (a b : String) : Int :=
  if a = b then 0 else if lexLt a.toList b.toList then -1 else 1

/-- The function `cmpLogFiles` of main.go. -/
def cmpLogFiles (tbl : Char → Char) (a b : String) : Int :=
  -Compare (ToLower tbl a) (ToLower tbl b)

/-- Inner loop of the insertion sort of package `slices`
(`for j := i; j > a && cmp(data[j], data[j-1]) < 0; j--` swapping neighbours): the
element `x` sinks into the already sorted part, given last element first. -/
def insertLast {α : Type} (cmp : α → α → Int) (x : α) : List α → List α
  | [] => [x]
  | y :: ys => if cmp x y < 0 then y :: insertLast cmp x ys else x :: y :: ys

/-- The function `slices.SortFunc`, as the insertion sort Go runs on slices of at most
twelve elements. A longer slice goes through pattern-defeating quicksort, with the same
contract (the result is a rearrangement in which no element is `cmp`-less than one
before it) but possibly another order among elements that compare equal. The theorems
that evaluate `SortFunc` do so on at most twelve elements; the others use only the
contract. -/
def SortFunc {α : Type} (cmp : α → α → Int) (data : List α) : List α :=
  (data.foldl (fun sorted x => insertLast cmp x sorted) []).reverse

/-! ## path/filepath (Unix) -/

/-- The error `filepath.ErrBadPattern`. -/
def ErrBadPattern : String := "syntax error in pattern"

/-- Path elements: the text between separators. -/
def splitSep : List Char → List (List Char)
  | [] => [[]]
  | c :: cs =>
      if c = '/' then [] :: splitSep cs
      else match splitSep cs with
        | [] => [[c]]
        | e :: es => (c :: e) :: es

/-- One element processed by `Clean`; the stack holds the kept elements, last first. -/
def cleanStep (rooted : Bool) (st : List (List Char)) (e : List Char) : List (List Char) :=
  if e = [] ∨ e = ['.'] then st
  else if e = ['.', '.'] then
    match st with
    | [] => if rooted then [] else [e]
    | top :: rest => if top = ['.', '.'] then e :: st else rest
  else e :: st

/-- Join elements with the separator. -/
def joinSep : List (List Char) → List Char
  | [] => []
  | [e] => e
  | e :: es => e ++ '/' :: joinSep es

/-- The function `filepath.Clean` on lists of runes: multiple separators collapse, `.`
elements go, inner `..` elements go with the element before them, `..` at the root
goes, and the empty result is `.`. -/
def cleanChars (path : List Char) : List Char :=
  let rooted := path.head? = some '/'
  let st := (splitSep path).foldl (cleanStep rooted) []
  let out := (if rooted then ['/'] else []) ++ joinSep st.reverse
  if out = [] then ['.'] else out

/-- The function `filepath.Clean`. -/
def Clean (path : String) : String := String.mk (cleanChars path.toList)

/-- The function `filepath.Join` for two elements: empty elements are ignored, the rest
is joined with the separator and cleaned. -/
def Join (a b : String) : String :=
  if a ≠ "" then Clean (a ++ "/" ++ b) else if b ≠ "" then Clean b else ""

/-- Split after the last separator (on runes). -/
def splitLast : List Char → List Char × List Char
  | [] => ([], [])
  | c :: cs =>
      match splitLast cs with
      | ([], f) => if c = '/' then ([c], f) else ([], c :: f)
      | (d, f) => (c :: d, f)

/-- The function `filepath.Split`: directory part (with its final separator) and file. -/
def Split (path : String) : String × String :=
  (String.mk (splitLast path.toList).1, String.mk (splitLast path.toList).2)

/-- The function `hasMeta`: whether the path has one of the magic runes `*?[\`. -/
def hasMeta (path : String) : Bool :=
  path.toList.any (fun c => c = '*' || c = '?' || c = '[' || c = '\\')

/-- The function `cleanGlobPath`. -/
def cleanGlobPath (path : String) : String :=
  if path = "" then "."
  else if path = "/" then path
  else String.mk path.toList.dropLast

/-- Leading stars of a pattern removed; whether there was one. -/
def dropStars : List Char → Bool × List Char
  | '*' :: r => (true, (dropStars r).2)
  | p => (false, p)

/-- The scan loop of `scanChunk`: the chunk ends before the first star outside a class. -/
def chunkSplit : Bool → List Char → List Char × List Char
  | _, [] => ([], [])
  | _, ['\\'] => (['\\'], [])
  | inrange, '\\' :: c :: r =>
      let (a, b) := chunkSplit inrange r
      ('\\' :: c :: a, b)
  | inrange, c :: r =>
      if c = '[' then let (a, b) := chunkSplit true r; (c :: a, b)
      else if c = ']' then let (a, b) := chunkSplit false r; (c :: a, b)
      else if c = '*' ∧ inrange = false then ([], c :: r)
      else let (a, b) := chunkSplit inrange r; (c :: a, b)

/-- The function `scanChunk`: star flag, chunk, rest of the pattern. -/
def scanChunk (pattern : List Char) : Bool × List Char × List Char :=
  let (star, p) := dropStars pattern
  let (chunk, rest) := chunkSplit false p
  (star, chunk, rest)

/-- The function `getEsc`: one possibly escaped rune of a class and the rest. -/
def getEsc (chunk : List Char) : Except String (Char × List Char) :=
  match chunk with
  | [] => .error ErrBadPattern
  | c :: r =>
      if c = '-' ∨ c = ']' then .error ErrBadPattern
      else if c = '\\' then
        match r with
        | [] => .error ErrBadPattern
        | c2 :: r2 => if r2 = [] then .error ErrBadPattern else .ok (c2, r2)
      else if r = [] then .error ErrBadPattern else .ok (c, r)

/-- The range loop of a bracket class in `matchChunk`: whether the rune `r` lies in one
of the ranges, and the chunk after the closing bracket. -/
def classLoop (r : Option Char) : Nat → Bool → Nat → List Char → Except String (Bool × List Char)
  | 0, _, _, _ => .error ErrBadPattern
  | fuel + 1, found, nrange, chunk =>
      match chunk, decide (0 < nrange) with
      | ']' :: rest, true => .ok (found, rest)
      | _, _ =>
        match getEsc chunk with
        | .error e => .error e
        | .ok (lo, chunk1) =>
          match chunk1 with
          | '-' :: chunk2 =>
            match getEsc chunk2 with
            | .error e => .error e
            | .ok (hi, chunk3) =>
              classLoop r fuel (found || r.any (fun x => decide (lo ≤ x) && decide (x ≤ hi)))
                (nrange + 1) chunk3
          | _ =>
            classLoop r fuel (found || r.any (fun x => decide (lo ≤ x) && decide (x ≤ lo)))
              (nrange + 1) chunk1

/-- The loop of `matchChunk`: after the match has failed the chunk is still read to the
end to check that it is well formed. `none` in the result is `ok = false`. -/
def matchChunkLoop : Nat → Bool → List Char → List Char → Except String (Option (List Char))
  | 0, _, _, _ => .error ErrBadPattern
  | fuel + 1, failed, chunk, s =>
      match chunk with
      | [] => .ok (if failed then none else some s)
      | c :: chunk1 =>
        let failed := failed || s.isEmpty
        if c = '[' then
          let r := if failed then none else s.head?
          let s1 := if failed then s else s.tail
          let negated := chunk1.head? = some '^'
          let chunk2 := if negated then chunk1.tail else chunk1
          match classLoop r chunk2.length.succ false 0 chunk2 with
          | .error e => .error e
          | .ok (found, chunk3) =>
              matchChunkLoop fuel (failed || (found == decide negated)) chunk3 s1
        else if c = '?' then
          matchChunkLoop fuel (failed || s.head? = some '/') chunk1 (if failed then s else s.tail)
        else if c = '\\' then
          match chunk1 with
          | [] => .error ErrBadPattern
          | c2 :: chunk2 =>
              matchChunkLoop fuel (failed || s.head? ≠ some c2) chunk2
                (if failed then s else s.tail)
        else
          matchChunkLoop fuel (failed || s.head? ≠ some c) chunk1 (if failed then s else s.tail)

/-- The function `matchChunk`. -/
def matchChunk (chunk s : List Char) : Except String (Option (List Char)) :=
  matchChunkLoop chunk.length.succ false chunk s

/-- The loop of `Match` that lets a star swallow `i + 1` runes, never a separator. -/
def starSkip (chunk : List Char) (last : Bool) :
    List Char → Except String (Option (List Char))
  | [] => .ok none
  | c :: rest =>
      if c = '/' then .ok none
      else match matchChunk chunk rest with
        | .error e => .error e
        | .ok (some t) =>
            if last ∧ t ≠ [] then starSkip chunk last rest else .ok (some t)
        | .ok none => starSkip chunk last rest

/-- The loop `Pattern:` of `Match`. When a chunk fails (and no star can move it) the
answer is `false` without error: the rest of the pattern is not looked at. -/
def matchLoop : Nat → List Char → List Char → Except String Bool
  | 0, _, _ => .error ErrBadPattern
  | fuel + 1, pattern, name =>
      match pattern with
      | [] => .ok name.isEmpty
      | _ =>
        let (star, chunk, rest) := scanChunk pattern
        if star ∧ chunk = [] then .ok (!name.contains '/')
        else
          match matchChunk chunk name with
          | .ok (some t) =>
              if t = [] ∨ rest ≠ [] then matchLoop fuel rest t
              else if star then
                match starSkip chunk (decide (rest = [])) name with
                | .error e => .error e
                | .ok (some t2) => matchLoop fuel rest t2
                | .ok none => .ok false
              else .ok false
          | .error e => .error e
          | .ok none =>
              if star then
                match starSkip chunk (decide (rest = [])) name with
                | .error e => .error e
                | .ok (some t2) => matchLoop fuel rest t2
                | .ok none => .ok false
              else .ok false

/-- The function `filepath.Match`. -/
def Match (pattern name : String) : Except String Bool :=
  matchLoop pattern.length.succ pattern.toList name.toList

/-! ## filepath.Glob and the file locator -/

/-- The function `glob` of package `filepath`: the names of directory `dir`, sorted, that
match `pattern` are appended to `found` as paths. Errors of the file system are
ignored there (an unreadable directory has no names). -/
def glob (fs : FileSystem) (dir pattern : String) (found : List String) :
    Except String (List String) :=
  (SortFunc Compare (fs.readDir dir)).foldlM
    (fun m n =>
      match Match pattern n with
      | .error e => .error e
      | .ok matched => .ok (if matched then m ++ [Join dir n] else m))
    found

/-- The function `globWithLimit`; the fuel is the distance of `depth` to the limit
`pathSeparatorsLimit`. -/
def globWithLimit (fs : FileSystem) : Nat → String → Except String (List String)
  | 0, _ => .error ErrBadPattern
  | fuel + 1, pattern =>
      match Match pattern "" with
      | .error e => .error e
      | .ok _ =>
        if hasMeta pattern = false then
          .ok (if fs.lstat pattern then [pattern] else [])
        else
          let dir := cleanGlobPath (Split pattern).1
          let file := (Split pattern).2
          if hasMeta dir = false then glob fs dir file []
          else if dir = pattern then .error ErrBadPattern
          else
            match globWithLimit fs fuel dir with
            | .error e => .error e
            | .ok m => m.foldlM (fun found d => glob fs d file found) []

/-- The constant `pathSeparatorsLimit` of `globWithLimit`. -/
def pathSeparatorsLimit : Nat := 10000

/-- The function `filepath.Glob`. -/
def Glob (fs : FileSystem) (pattern : String) : Except String (List String) :=
  globWithLimit fs pathSeparatorsLimit pattern

/-- The struct `Scraper` of main.go. -/
structure Scraper where
  dirPath : String
  logFilenames : List String
  deriving DecidableEq, Repr

/-- The function `NewScraper`. -/
def NewScraper (path : String) : Scraper := { dirPath := path, logFilenames := [] }

/-- The method `(*Scraper).ScrapeFiles`: the scraper after the call and the returned
error (`none` is `nil`). -/
def Scraper.ScrapeFiles (tbl : Char → Char) (fs : FileSystem) (s : Scraper) :
    Scraper × Option String :=
  match Glob fs (Join s.dirPath compressedLogFilePattern) with
  | .error err => (s, some ("error listing compressed log files: " ++ err))
  | .ok compressedLogFiles =>
    let s := { s with logFilenames := s.logFilenames ++ compressedLogFiles }
    match Glob fs (Join s.dirPath uncompressedLogFilePattern) with
    | .error err => (s, some ("error listing uncompressed log files: " ++ err))
    | .ok uncompressedLogFiles =>
      let s := { s with logFilenames := s.logFilenames ++ uncompressedLogFiles }
      match Glob fs (Join s.dirPath currentLogFilePattern) with
      | .error err => (s, some ("error listing current log file: " ++ err))
      | .ok currentLogFileFile =>
        let s := { s with logFilenames := s.logFilenames ++ currentLogFileFile }
        if s.logFilenames.length = 0 then
          (s, some ("no log files found in " ++ s.dirPath))
        else
          ({ s with logFilenames := SortFunc (cmpLogFiles tbl) s.logFilenames }, none)

/-! ## main -/

/-- The slice `checks` built at the start of `main`; `none` if a pattern fails to compile. -/
def initialChecks : Option (List PatternCheck) := do
  let r1 ← MustCompile multivpRegex
  let r2 ← MustCompile undistortRegex
  let r3 ← MustCompile cartesianRegex
  let r4 ← MustCompile gpsRegex
  let r5 ← MustCompile kafkaRegex
  pure [
    { Pattern := r1, ErrorMessage := "Port already in use.", Count := 0, ExampleLine := "" },
    { Pattern := r2, ErrorMessage := "Perspective transform config error.", Count := 0,
      ExampleLine := "" },
    { Pattern := r3, ErrorMessage := "Near miss calculator error.", Count := 0,
      ExampleLine := "" },
    { Pattern := r4, ErrorMessage := "GPS template execution failed.", Count := 0,
      ExampleLine := "" },
    { Pattern := r5,
      ErrorMessage := "Kafka error - try restarting the VP. if the issue persists, raise with tech",
      Count := 0, ExampleLine := "" }]

/-- What `main` reports at the end: the checks, `totalMatches` and `totalErrors`. -/
structure Report where
  checks : List PatternCheck
  totalMatches : Int
  totalErrors : List String
  deriving DecidableEq, Repr

/-- The loop `for _, check := range checks` of `main`, without the printing; the sum
`totalMatches += check.Count` is taken on unbounded integers, like the Counts of a run,
which start at 0 and grow by one per matching line. -/
def summarize (checks : List PatternCheck) : Int × List String :=
  checks.foldl
    (fun acc check =>
      (acc.1 + check.Count, if check.Count > 1 then acc.2 ++ [check.ErrorMessage] else acc.2))
    (0, [])

/-- The function `main`, for the directory given by the flag `path`: an error is the
message of `log.Fatalf` (or the panic of `MustCompile`), otherwise the report. -/
def main (tbl : Char → Char) (fs : FileSystem) (logDirPath : String) : Except String Report :=
  match initialChecks with
  | none => .error "regexp: Compile: error parsing regexp"
  | some checks =>
    let s := NewScraper logDirPath
    match s.ScrapeFiles tbl fs with
    | (_, some err) => .error ("error scraping files: " ++ err)
    | (s, none) =>
      let checks := scanFiles fs s.logFilenames checks
      let r := summarize checks
      .ok { checks := checks, totalMatches := r.1, totalErrors := r.2 }

/-! ### vocabulary of the scanner claims -/

/-- Number of lines that match a pattern. -/
def matchCount (p : Regexp) (lines : List String) : Nat :=
  lines.countP (fun l => p.MatchString l)

/-- First line, in order, that matches a pattern. -/
def firstMatch (p : Regexp) (lines : List String) : Option String :=
  lines.find? (fun l => p.MatchString l)

/-- First non-empty line, in order, that matches a pattern. -/
def firstNonEmptyMatch (p : Regexp) (lines : List String) : Option String :=
  lines.find? (fun l => p.MatchString l && decide (l ≠ ""))

/-- One check carried through all lines of a file. -/
def foldCheck (lines : List String) (c : PatternCheck) : PatternCheck :=
  lines.foldl (fun c l => checkLine l c) c

/-- One check carried through all lines of a file, `Count++` on a 64-bit `int`. -/
def foldCheckWrap (lines : List String) (c : PatternCheck) : PatternCheck :=
  lines.foldl (fun c l => checkLineWrap l c) c

/-- Whether `os.Open` succeeds on a path. -/
def FileSystem.opens (fs : FileSystem) (filePath : String) : Bool :=
  match fs.openFile filePath with
  | .ok _ => true
  | .error _ => false

/-- The lines the scanner delivers for one path (none when the file does not open). -/
def FileSystem.linesOf (fs : FileSystem) (filePath : String) : List String :=
  match fs.openFile filePath with
  | .ok file => file.lines
  | .error _ => []

/-- All lines delivered while the files of a list are scanned in order. -/
def scannedLines (fs : FileSystem) (files : List String) : List String :=
  files.flatMap fs.linesOf

/-- The order of the sorted file list: `a` may stand before `b` when the lower-cased
`a` is lexicographically greater than or equal to the lower-cased `b`. -/
def lowerGE (tbl : Char → Char) (a b : String) : Prop :=
  lexLt (ToLower tbl a).toList (ToLower tbl b).toList = false

instance (tbl : Char → Char) (a b : String) : Decidable (lowerGE tbl a b) := by
  unfold lowerGE; infer_instance

/-! ## vocabulary of the proofs, sample file systems -/

/-- The pattern `.*`, which matches every line, the empty one included. -/
def matchAll : Regexp := ⟨[.rep .anyNotNL 0 none]⟩

/-- The pattern `b`. -/
def matchB : Regexp := ⟨[.rep (.lit 'b') 1 (some 1)]⟩

/-- A file system with the files `A` (lines "", "abc"), `B` (line "xb"), `E` (one empty
line) and nothing else. -/
def sampleFS : FileSystem where
  openFile := fun p =>
    if p = "A" then .ok ⟨["", "abc"], none⟩
    else if p = "B" then .ok ⟨["xb"], none⟩
    else if p = "E" then .ok ⟨[""], none⟩
    else .error "open: no such file or directory"
  readDir := fun _ => []
  lstat := fun p => decide (p = "A" ∨ p = "B" ∨ p = "E")

/-- A path element that `Clean` keeps as it is: not empty, without separator, neither
`.` nor `..`. -/
def PlainElem (n : List Char) : Prop :=
  n ≠ [] ∧ '/' ∉ n ∧ n ≠ ['.'] ∧ n ≠ ['.', '.']

/-- Whether a path is rooted. -/
def isRooted (path : List Char) : Bool := path.head? = some '/'

/-- The elements `Clean` keeps, last first. -/
def cleanStack (path : List Char) : List (List Char) :=
  (splitSep path).foldl (cleanStep (isRooted path)) []

/-- The root separator of a rooted path. -/
def rootChars (rooted : Bool) : List Char := if rooted then ['/'] else []

/-- The cleaned directory path in front of a joined element, separator included. -/
def dirPrefix (path : List Char) : List Char :=
  rootChars (isRooted path) ++ (cleanStack path).reverse.flatMap (· ++ ['/'])

/-- Invariant of the stack of `Clean` (last element first): no empty element, no `.`,
no separator inside an element, `..` only below other `..`, and none in a rooted path. -/
def GoodStack (rooted : Bool) (st : List (List Char)) : Prop :=
  (∀ e ∈ st, e ≠ [] ∧ e ≠ ['.'] ∧ '/' ∉ e) ∧
    st.Pairwise (fun a b => a = ['.', '.'] → b = ['.', '.']) ∧
    (rooted = true → ∀ e ∈ st, e ≠ ['.', '.'])

/-- A name that `Clean` keeps as it is. -/
def PlainName (n : String) : Prop := PlainElem n.data

/-- The path `Join` makes of a directory path and a plain name: the cleaned directory
with its separator, then the name. -/
def joinedPath (dirPath n : String) : String := String.mk (dirPrefix dirPath.data ++ n.data)

/-- The function `cleanGlobPath` on runes. -/
def cleanGlobChars (path : List Char) : List Char :=
  if path = [] then ['.'] else if path = ['/'] then path else path.dropLast

/-- The magic runes of `hasMeta`. -/
def IsMagic (c : Char) : Prop := c = '*' ∨ c = '?' ∨ c = '[' ∨ c = '\\'

/-- Runes that `matchChunk` compares literally. -/
def IsLiteral (c : Char) : Prop := c ≠ '[' ∧ c ≠ '?' ∧ c ≠ '\\'

/-- The text after a literal prefix, if the text starts with it. -/
def stripLits (lits s : List Char) : Option (List Char) :=
  if lits.isPrefixOf s then some (s.drop lits.length) else none

/-- The name `syslog.N`. -/
def rotationName (d : Char) : String := String.mk ("syslog.".data ++ [d])

/-- The name `syslog.N.gz`. -/
def compressedName (d : Char) : String := String.mk ("syslog.".data ++ d :: ".gz".data)

/-- What `matchChunk` answers for the pattern `syslog.[0-9]` followed by the literal
runes `tail`. -/
def shapeMatch (tail s : List Char) : Option (List Char) :=
  match stripLits "syslog.".data s with
  | some (d :: t) => if isDigitRune d then stripLits tail t else none
  | _ => none

/-- Whether a name has the shape `syslog.N`, N a digit. -/
def isRotation (n : String) : Bool := decide (shapeMatch [] n.data = some [])

/-- Whether a name has the shape `syslog.N.gz`, N a digit. -/
def isCompressed (n : String) : Bool := decide (shapeMatch ".gz".data n.data = some [])

/-- Whether a name is `syslog`. -/
def isCurrent (n : String) : Bool := decide (n = "syslog")

/-- The log files of the directory a path without magic runes denotes, in the order
`ScrapeFiles` collects them before sorting. -/
def discovered (fs : FileSystem) (dirPath : String) : List String :=
  ((SortFunc Compare (fs.readDir (Clean dirPath))).filter isCompressed).map
      (Join (Clean dirPath)) ++
    ((SortFunc Compare (fs.readDir (Clean dirPath))).filter isRotation).map
      (Join (Clean dirPath)) ++
    (if fs.lstat (Join (Clean dirPath) currentLogFilePattern)
      then [Join (Clean dirPath) currentLogFilePattern] else [])

/-- A file system in which the directory path "lo?" is also a pattern for "log": the
directory "lo?" holds "syslog", the directory "log" holds "syslog.1". -/
def magicFS : FileSystem where
  openFile := fun _ => .error "open: permission denied"
  readDir := fun d =>
    if d = "." then ["lo?", "log"]
    else if d = "lo?" then ["syslog"]
    else if d = "log" then ["syslog.1"]
    else []
  lstat := fun p => decide (p = "lo?/syslog" ∨ p = "log/syslog.1" ∨ p = "lo?" ∨ p = "log")

/-- A file system with the log directory "var/log" holding the current file and three
rotations. -/
def logFS : FileSystem where
  openFile := fun _ => .error "open: permission denied"
  readDir := fun d =>
    if d = "var/log" then ["syslog.1", "syslog", "syslog.2.gz", "syslog.1.gz"] else []
  lstat := fun p =>
    decide (p = "var/log/syslog" ∨ p = "var/log/syslog.1" ∨ p = "var/log/syslog.2.gz" ∨
      p = "var/log/syslog.1.gz")

/-- The name of the rotation with digit `d`, compressed (`syslog.d.gz`) or not. -/
def logName (d : Char) (gz : Bool) : String :=
  if gz then compressedName d else rotationName d

/-- The line of the end-to-end scenario. -/
def scenarioLine : String :=
  "Jan 01 00:00:01 hardware-1 docker-compose[1] vision_pipeline address already in use"

/-- The file system of the end-to-end scenario: the directory "var/log" holds the single
file "syslog", whose only line is `scenarioLine`. -/
def scenarioFS : FileSystem where
  openFile := fun p =>
    if p = "var/log/syslog" then .ok ⟨[scenarioLine], none⟩
    else .error "open: no such file or directory"
  readDir := fun d => if d = "var/log" then ["syslog"] else []
  lstat := fun p => decide (p = "var/log/syslog")

/-- The end-to-end scenario under a directory path that is also a pattern: the directory
"lo?" holds the single file "syslog", its sibling "log" holds "syslog.1", and each of
the two files has `scenarioLine` as its only line. -/
def magicScenarioFS : FileSystem where
  openFile := fun p =>
    if p = "lo?/syslog" then .ok ⟨[scenarioLine], none⟩
    else if p = "log/syslog.1" then .ok ⟨[scenarioLine], none⟩
    else .error "open: no such file or directory"
  readDir := fun d =>
    if d = "." then ["lo?", "log"]
    else if d = "lo?" then ["syslog"]
    else if d = "log" then ["syslog.1"]
    else []
  lstat := fun p => decide (p = "lo?/syslog" ∨ p = "log/syslog.1" ∨ p = "lo?" ∨ p = "log")

/-- A file system whose every path opens as a file of 2^63 lines "b". -/
def floodFS : FileSystem where
  openFile := fun _ => .ok ⟨List.replicate 9223372036854775808 "b", none⟩
  readDir := fun _ => []
  lstat := fun _ => true

/-! # Theorems -/

/-! ### lemmas on the scanner -/

theorem scanLines_eq_map (lines : List String) (checks : List PatternCheck) :
    scanLines lines checks = checks.map (foldCheck lines) := by
  induction lines generalizing checks with
  | nil =>
    have h : foldCheck [] = id := rfl
    simp [scanLines, h]
  | cons l ls ih =>
    have h := ih (scanLine checks l)
    simp only [scanLines, List.foldl_cons] at h ⊢
    rw [h]
    simp [scanLine, foldCheck]

theorem checkLine_Pattern (l : String) (c : PatternCheck) :
    (checkLine l c).Pattern = c.Pattern := by
  unfold checkLine; split_ifs <;> rfl

theorem checkLine_ErrorMessage (l : String) (c : PatternCheck) :
    (checkLine l c).ErrorMessage = c.ErrorMessage := by
  unfold checkLine; split_ifs <;> rfl

theorem checkLine_Count (l : String) (c : PatternCheck) :
    (checkLine l c).Count = c.Count + (if c.Pattern.MatchString l then 1 else 0) := by
  unfold checkLine; split_ifs <;> simp

theorem checkLine_ExampleLine (l : String) (c : PatternCheck) :
    (checkLine l c).ExampleLine =
      if c.ExampleLine = "" ∧ c.Pattern.MatchString l = true then l else c.ExampleLine := by
  unfold checkLine; split_ifs <;> simp_all

theorem foldCheck_Pattern (lines : List String) (c : PatternCheck) :
    (foldCheck lines c).Pattern = c.Pattern := by
  induction lines generalizing c with
  | nil => rfl
  | cons l ls ih =>
    have h := ih (checkLine l c)
    simp only [foldCheck, List.foldl_cons] at h ⊢
    rw [h, checkLine_Pattern]

theorem foldCheck_ErrorMessage (lines : List String) (c : PatternCheck) :
    (foldCheck lines c).ErrorMessage = c.ErrorMessage := by
  induction lines generalizing c with
  | nil => rfl
  | cons l ls ih =>
    have h := ih (checkLine l c)
    simp only [foldCheck, List.foldl_cons] at h ⊢
    rw [h, checkLine_ErrorMessage]

theorem foldCheck_Count (lines : List String) (c : PatternCheck) :
    (foldCheck lines c).Count = c.Count + (matchCount c.Pattern lines : Nat) := by
  induction lines generalizing c with
  | nil => simp [foldCheck, matchCount]
  | cons l ls ih =>
    have h := ih (checkLine l c)
    simp only [foldCheck, List.foldl_cons] at h ⊢
    rw [h, checkLine_Pattern, checkLine_Count]
    simp only [matchCount, List.countP_cons]
    split_ifs <;> simp_all
    omega

theorem foldCheck_ExampleLine (lines : List String) (c : PatternCheck) :
    (foldCheck lines c).ExampleLine =
      if c.ExampleLine = "" then (firstNonEmptyMatch c.Pattern lines).getD ""
      else c.ExampleLine := by
  induction lines generalizing c with
  | nil => by_cases h : c.ExampleLine = "" <;> simp [foldCheck, firstNonEmptyMatch, h]
  | cons l ls ih =>
    have h := ih (checkLine l c)
    simp only [foldCheck, List.foldl_cons] at h ⊢
    rw [h, checkLine_Pattern, checkLine_ExampleLine]
    simp only [firstNonEmptyMatch, List.find?_cons]
    by_cases he : c.ExampleLine = "" <;> by_cases hm : c.Pattern.MatchString l = true <;>
      by_cases hl : l = "" <;> simp_all

theorem filterFile2_fst_ok (fs : FileSystem) (filePath : String) (file : ScannedFile)
    (checks : List PatternCheck) (hopen : fs.openFile filePath = .ok file) :
    (filterFile2 fs filePath checks).1 = checks.map (foldCheck file.lines) := by
  unfold filterFile2
  rw [hopen]
  simp only
  split <;> simp [scanLines_eq_map]

theorem filterFile2_fst_error (fs : FileSystem) (filePath e : String)
    (checks : List PatternCheck) (hopen : fs.openFile filePath = .error e) :
    filterFile2 fs filePath checks = (checks, some ("failed to open file: " ++ e)) := by
  unfold filterFile2
  rw [hopen]

theorem firstNonEmptyMatch_of_firstMatch (p : Regexp) (lines : List String) (l : String)
    (h : firstMatch p lines = some l) (hl : l ≠ "") :
    firstNonEmptyMatch p lines = some l := by
  induction lines with
  | nil => simp [firstMatch] at h
  | cons x xs ih =>
    by_cases hx : p.MatchString x = true
    · have hxl : x = l := by simpa [firstMatch, List.find?_cons, hx] using h
      subst hxl
      simp [firstNonEmptyMatch, List.find?_cons, hx, hl]
    · have hx' : p.MatchString x = false := by simpa using hx
      have h' : firstMatch p xs = some l := by
        simpa [firstMatch, List.find?_cons, hx'] using h
      have := ih h'
      simpa [firstNonEmptyMatch, List.find?_cons, hx'] using this

theorem firstNonEmptyMatch_append (p : Regexp) (A B : List String) :
    firstNonEmptyMatch p (A ++ B) =
      (firstNonEmptyMatch p A).or (firstNonEmptyMatch p B) := by
  simp only [firstNonEmptyMatch, List.find?_append]

theorem matchCount_append (p : Regexp) (A B : List String) :
    matchCount p (A ++ B) = matchCount p A + matchCount p B := by
  simp [matchCount, List.countP_append]

theorem foldCheck_append (A B : List String) (c : PatternCheck) :
    foldCheck B (foldCheck A c) = foldCheck (A ++ B) c := by
  simp [foldCheck, List.foldl_append]

theorem foldCheck_of_no_match (lines : List String) (c : PatternCheck)
    (h : ∀ l ∈ lines, c.Pattern.MatchString l = false) : foldCheck lines c = c := by
  induction lines with
  | nil => rfl
  | cons l ls ih =>
    have h1 : checkLine l c = c := by
      unfold checkLine
      simp [h l (List.mem_cons_self _ _)]
    simp only [foldCheck, List.foldl_cons, h1]
    exact ih (fun x hx => h x (List.mem_cons_of_mem _ hx))

/-! ### sample data -/

/-! ## C1 -/

/-- C1, as stated, fails: with the pattern `.*` and the file of lines "" and "abc", the
check starts at Count 0 with an empty ExampleLine and two lines match, the first being
the empty line; after `filterFile2` the ExampleLine is "abc", not the first matching
line. -/
theorem C1_counterexample :
    (⟨matchAll, "m", 0, ""⟩ : PatternCheck).Count = 0 ∧
    sampleFS.openFile "A" = .ok ⟨["", "abc"], none⟩ ∧
    1 ≤ matchCount matchAll ["", "abc"] ∧
    firstMatch matchAll ["", "abc"] = some "" ∧
    (filterFile2 sampleFS "A" [⟨matchAll, "m", 0, ""⟩]).1 = [⟨matchAll, "m", 2, "abc"⟩] :=
  ⟨rfl, rfl, by decide, by decide, by decide⟩

/-- C1 (amended): for every file the scanner reads and every check that enters with
Count = 0 and an empty ExampleLine, if M >= 1 lines match the pattern then after
`filterFile2` the Count is M and the ExampleLine is the first non-empty matching line
(empty when every matching line is empty); so it is the first matching line whenever
that line is not empty. -/
theorem C1_filterFile2_count_and_example (fs : FileSystem) (filePath : String)
    (file : ScannedFile) (checks : List PatternCheck) (i : Nat) (c : PatternCheck)
    (hopen : fs.openFile filePath = .ok file) (hc : checks[i]? = some c)
    (h0 : c.Count = 0) (he : c.ExampleLine = "")
    (_hM : 1 ≤ matchCount c.Pattern file.lines) :
    ∃ c', (filterFile2 fs filePath checks).1[i]? = some c' ∧
      c'.Count = (matchCount c.Pattern file.lines : Int) ∧
      c'.ExampleLine = (firstNonEmptyMatch c.Pattern file.lines).getD "" ∧
      (∀ l, firstMatch c.Pattern file.lines = some l → l ≠ "" → c'.ExampleLine = l) := by
  refine ⟨foldCheck file.lines c, ?_, ?_, ?_, ?_⟩
  · rw [filterFile2_fst_ok fs filePath file checks hopen, List.getElem?_map, hc]
    rfl
  · rw [foldCheck_Count, h0]; simp
  · rw [foldCheck_ExampleLine, if_pos he]
  · intro l hl hne
    rw [foldCheck_ExampleLine, if_pos he, firstNonEmptyMatch_of_firstMatch _ _ _ hl hne]
    rfl

/-- Instance of C1 (amended): the pattern `b` on the file "A", whose second line "abc" is
its first match. -/
theorem C1_filterFile2_count_and_example_witness :
    ∃ c', (filterFile2 sampleFS "A" [⟨matchAll, "m", 0, ""⟩, ⟨matchB, "b", 0, ""⟩]).1[1]? = some c' ∧
      c'.Count = (matchCount matchB ["", "abc"] : Int) ∧
      c'.ExampleLine = (firstNonEmptyMatch matchB ["", "abc"]).getD "" ∧
      (∀ l, firstMatch matchB ["", "abc"] = some l → l ≠ "" → c'.ExampleLine = l) :=
  C1_filterFile2_count_and_example sampleFS "A" ⟨["", "abc"], none⟩
    [⟨matchAll, "m", 0, ""⟩, ⟨matchB, "b", 0, ""⟩] 1 ⟨matchB, "b", 0, ""⟩
    rfl (by decide) rfl rfl (by decide)

/-! ## C2 -/

theorem filterFile2_fst_linesOf (fs : FileSystem) (filePath : String)
    (checks : List PatternCheck) :
    (filterFile2 fs filePath checks).1 = checks.map (foldCheck (fs.linesOf filePath)) := by
  cases h : fs.openFile filePath with
  | ok file =>
    rw [filterFile2_fst_ok fs filePath file checks h]
    simp [FileSystem.linesOf, h]
  | error e =>
    rw [filterFile2_fst_error fs filePath e checks h]
    have h1 : foldCheck [] = id := rfl
    simp [FileSystem.linesOf, h, h1]

theorem scanFiles_eq_map (fs : FileSystem) (files : List String)
    (checks : List PatternCheck) :
    scanFiles fs files checks = checks.map (foldCheck (scannedLines fs files)) := by
  induction files generalizing checks with
  | nil =>
    have h1 : foldCheck [] = id := rfl
    simp [scanFiles, scannedLines, h1]
  | cons f fs' ih =>
    have h := ih ((filterFile2 fs f checks).1)
    simp only [scanFiles, List.foldl_cons] at h ⊢
    rw [h, filterFile2_fst_linesOf, List.map_map]
    apply List.map_congr_left
    intro c _
    simp [scannedLines, List.flatMap_cons, foldCheck_append]

/-- C2, as stated, fails: with the pattern `.*`, file "E" (one empty line, so a = 1) and
then file "B" (line "xb", b = 1), the Count is 2 but the ExampleLine is "xb", a line of
the second file, not the first matching line of the first file. -/
theorem C2_counterexample :
    sampleFS.openFile "E" = .ok ⟨[""], none⟩ ∧
    sampleFS.openFile "B" = .ok ⟨["xb"], none⟩ ∧
    1 ≤ matchCount matchAll [""] ∧
    firstMatch matchAll [""] = some "" ∧
    (filterFile2 sampleFS "B" (filterFile2 sampleFS "E" [⟨matchAll, "m", 0, ""⟩]).1).1 =
      [⟨matchAll, "m", 2, "xb"⟩] :=
  ⟨rfl, rfl, by decide, by decide, by decide⟩

/-- C2 (amended): for every check that enters with Count = 0 and an empty ExampleLine and
every two files A and B with a >= 1 and b >= 0 matching lines, `filterFile2` on A and
then on B leaves Count = a + b and the ExampleLine equal to the first non-empty matching
line of A followed by B; when A has a non-empty matching line the ExampleLine is A's
first such line and B never overwrites it, and it is A's first matching line whenever
that line is not empty. -/
theorem C2_accumulation_additive (fs : FileSystem) (pathA pathB : String)
    (A B : ScannedFile) (checks : List PatternCheck) (i : Nat) (c : PatternCheck)
    (hA : fs.openFile pathA = .ok A) (hB : fs.openFile pathB = .ok B)
    (hc : checks[i]? = some c) (h0 : c.Count = 0) (he : c.ExampleLine = "")
    (_ha : 1 ≤ matchCount c.Pattern A.lines) :
    ∃ c', (filterFile2 fs pathB (filterFile2 fs pathA checks).1).1[i]? = some c' ∧
      c'.Count = (matchCount c.Pattern A.lines : Int) + (matchCount c.Pattern B.lines : Int) ∧
      c'.ExampleLine = (firstNonEmptyMatch c.Pattern (A.lines ++ B.lines)).getD "" ∧
      (∀ l, firstNonEmptyMatch c.Pattern A.lines = some l → c'.ExampleLine = l) ∧
      (∀ l, firstMatch c.Pattern A.lines = some l → l ≠ "" → c'.ExampleLine = l) := by
  have hex : (foldCheck (A.lines ++ B.lines) c).ExampleLine =
      (firstNonEmptyMatch c.Pattern (A.lines ++ B.lines)).getD "" := by
    rw [foldCheck_ExampleLine, if_pos he]
  refine ⟨foldCheck (A.lines ++ B.lines) c, ?_, ?_, hex, ?_, ?_⟩
  · rw [filterFile2_fst_ok fs pathB B _ hB, filterFile2_fst_ok fs pathA A _ hA,
      List.map_map, List.getElem?_map, hc]
    simp [foldCheck_append]
  · rw [foldCheck_Count, h0, matchCount_append]; simp
  · intro l hl
    rw [hex, firstNonEmptyMatch_append, hl]
    rfl
  · intro l hl hne
    rw [hex, firstNonEmptyMatch_append, firstNonEmptyMatch_of_firstMatch _ _ _ hl hne]
    rfl

/-- Instance of C2 (amended): the pattern `b` on file "A" and then file "B". -/
theorem C2_accumulation_additive_witness :
    ∃ c', (filterFile2 sampleFS "B" (filterFile2 sampleFS "A" [⟨matchB, "b", 0, ""⟩]).1).1[0]?
        = some c' ∧
      c'.Count = (matchCount matchB ["", "abc"] : Int) + (matchCount matchB ["xb"] : Int) ∧
      c'.ExampleLine = (firstNonEmptyMatch matchB (["", "abc"] ++ ["xb"])).getD "" ∧
      (∀ l, firstNonEmptyMatch matchB ["", "abc"] = some l → c'.ExampleLine = l) ∧
      (∀ l, firstMatch matchB ["", "abc"] = some l → l ≠ "" → c'.ExampleLine = l) :=
  C2_accumulation_additive sampleFS "A" "B" ⟨["", "abc"], none⟩ ⟨["xb"], none⟩
    [⟨matchB, "b", 0, ""⟩] 0 ⟨matchB, "b", 0, ""⟩ rfl rfl rfl rfl rfl (by decide)

/-! ## C3 -/

/-- C3: when no line the scanner delivers for a file matches a check's pattern,
`filterFile2` leaves that check as it was (so Count = 0 and an empty ExampleLine stay),
whatever the other checks of the list match. -/
theorem C3_no_match_leaves_check (fs : FileSystem) (filePath : String)
    (checks : List PatternCheck) (i : Nat) (c : PatternCheck)
    (hc : checks[i]? = some c)
    (hno : ∀ l ∈ fs.linesOf filePath, c.Pattern.MatchString l = false) :
    (filterFile2 fs filePath checks).1[i]? = some c ∧
      (c.Count = 0 → c.ExampleLine = "" →
        ∃ c', (filterFile2 fs filePath checks).1[i]? = some c' ∧
          c'.Count = 0 ∧ c'.ExampleLine = "") := by
  have h : (filterFile2 fs filePath checks).1[i]? = some c := by
    rw [filterFile2_fst_linesOf, List.getElem?_map, hc]
    simp [foldCheck_of_no_match _ _ hno]
  exact ⟨h, fun h0 he => ⟨c, h, h0, he⟩⟩

/-- Instance of C3: on file "B" (line "xb") the check for `abc`-free pattern `b` matches
while the check at index 1, whose pattern is `^$`, matches nothing and stays put. -/
theorem C3_no_match_leaves_check_witness :
    (filterFile2 sampleFS "B"
        [⟨matchB, "b", 0, ""⟩, ⟨⟨[.bol, .eol]⟩, "empty", 0, ""⟩]).1[1]?
        = some ⟨⟨[.bol, .eol]⟩, "empty", 0, ""⟩ ∧
      ((⟨⟨[.bol, .eol]⟩, "empty", 0, ""⟩ : PatternCheck).Count = 0 →
        (⟨⟨[.bol, .eol]⟩, "empty", 0, ""⟩ : PatternCheck).ExampleLine = "" →
        ∃ c', (filterFile2 sampleFS "B"
            [⟨matchB, "b", 0, ""⟩, ⟨⟨[.bol, .eol]⟩, "empty", 0, ""⟩]).1[1]? = some c' ∧
          c'.Count = 0 ∧ c'.ExampleLine = "") :=
  C3_no_match_leaves_check sampleFS "B"
    [⟨matchB, "b", 0, ""⟩, ⟨⟨[.bol, .eol]⟩, "empty", 0, ""⟩] 1
    ⟨⟨[.bol, .eol]⟩, "empty", 0, ""⟩ rfl (by decide)

/-! ## C8 -/

theorem linesOf_of_not_opens (fs : FileSystem) (filePath : String)
    (h : fs.opens filePath = false) : fs.linesOf filePath = [] := by
  unfold FileSystem.opens at h
  unfold FileSystem.linesOf
  cases hf : fs.openFile filePath with
  | ok file => simp [hf] at h
  | error e => rfl

theorem scannedLines_filter_opens (fs : FileSystem) (files : List String) :
    scannedLines fs (files.filter fs.opens) = scannedLines fs files := by
  induction files with
  | nil => rfl
  | cons f fs' ih =>
    by_cases h : fs.opens f = true
    · simp only [scannedLines, List.filter_cons_of_pos h, List.flatMap_cons] at ih ⊢
      rw [ih]
    · have h' : fs.opens f = false := by simpa using h
      simp only [scannedLines, List.filter_cons_of_neg h, List.flatMap_cons,
        linesOf_of_not_opens fs f h', List.nil_append] at ih ⊢
      exact ih

/-- C8: when a file cannot be opened `filterFile2` returns an error and leaves every check
as it was, and the checks at the end of the scanning loop of `main` are those of the
same file list without the files that do not open (the files after a failing one are
still scanned). -/
theorem C8_unopenable_file_skipped (fs : FileSystem) :
    (∀ (filePath e : String) (checks : List PatternCheck),
        fs.openFile filePath = .error e →
        (filterFile2 fs filePath checks).1 = checks ∧
          (filterFile2 fs filePath checks).2 = some ("failed to open file: " ++ e)) ∧
    (∀ (files : List String) (checks : List PatternCheck),
        scanFiles fs files checks = scanFiles fs (files.filter fs.opens) checks) := by
  constructor
  · intro filePath e checks h
    rw [filterFile2_fst_error fs filePath e checks h]
    exact ⟨rfl, rfl⟩
  · intro files checks
    rw [scanFiles_eq_map, scanFiles_eq_map, scannedLines_filter_opens]

/-- Instance of C8: the path "missing" does not open in the sample file system. -/
theorem C8_unopenable_file_skipped_witness :
    (filterFile2 sampleFS "missing" [⟨matchB, "b", 0, ""⟩]).1 = [⟨matchB, "b", 0, ""⟩] ∧
      (filterFile2 sampleFS "missing" [⟨matchB, "b", 0, ""⟩]).2 =
        some ("failed to open file: " ++ "open: no such file or directory") :=
  (C8_unopenable_file_skipped sampleFS).1 "missing" "open: no such file or directory"
    [⟨matchB, "b", 0, ""⟩] rfl

/-! ## C10 -/

theorem firstNonEmptyMatch_some (p : Regexp) (lines : List String) (l : String)
    (h : firstNonEmptyMatch p lines = some l) :
    l ∈ lines ∧ p.MatchString l = true ∧ l ≠ "" := by
  unfold firstNonEmptyMatch at h
  have h1 := List.mem_of_find?_eq_some h
  have h2 := List.find?_some h
  simp only [Bool.and_eq_true, decide_eq_true_eq] at h2
  exact ⟨h1, h2.1, h2.2⟩

theorem matchCount_pos_of_mem (p : Regexp) (lines : List String) (l : String)
    (hl : l ∈ lines) (hm : p.MatchString l = true) : 1 ≤ matchCount p lines := by
  unfold matchCount
  exact List.countP_pos_iff.mpr ⟨l, hl, hm⟩

theorem mem_scannedLines (fs : FileSystem) (files : List String) (l : String)
    (h : l ∈ scannedLines fs files) :
    ∃ f ∈ files, ∃ file, fs.openFile f = .ok file ∧ l ∈ file.lines := by
  unfold scannedLines at h
  obtain ⟨f, hf, hl⟩ := List.mem_flatMap.mp h
  refine ⟨f, hf, ?_⟩
  unfold FileSystem.linesOf at hl
  cases hopen : fs.openFile f with
  | ok file =>
    rw [hopen] at hl
    exact ⟨file, rfl, hl⟩
  | error e =>
    rw [hopen] at hl
    simp at hl

theorem matchCount_le_length (p : Regexp) (lines : List String) :
    matchCount p lines ≤ lines.length := by
  unfold matchCount
  exact List.countP_le_length _

theorem incInt_of_lt (x : Int) (h1 : minInt ≤ x) (h2 : x < maxInt) : incInt x = x + 1 := by
  unfold incInt wrapInt
  unfold minInt maxInt at *
  omega

theorem minInt_le_wrapInt (x : Int) : minInt ≤ wrapInt x := by
  unfold wrapInt minInt
  omega

theorem wrapInt_le_maxInt (x : Int) : wrapInt x ≤ maxInt := by
  unfold wrapInt minInt maxInt
  omega

theorem wrapInt_of_range (x : Int) (h1 : minInt ≤ x) (h2 : x ≤ maxInt) : wrapInt x = x := by
  unfold wrapInt
  unfold minInt maxInt at *
  omega

theorem wrapInt_incInt_add (x k : Int) : wrapInt (incInt x + k) = wrapInt (x + (k + 1)) := by
  unfold incInt wrapInt minInt
  omega

theorem checkLineWrap_Pattern (l : String) (c : PatternCheck) :
    (checkLineWrap l c).Pattern = c.Pattern := by
  unfold checkLineWrap; split_ifs <;> rfl

theorem checkLineWrap_ErrorMessage (l : String) (c : PatternCheck) :
    (checkLineWrap l c).ErrorMessage = c.ErrorMessage := by
  unfold checkLineWrap; split_ifs <;> rfl

theorem checkLineWrap_Count (l : String) (c : PatternCheck) :
    (checkLineWrap l c).Count = if c.Pattern.MatchString l then incInt c.Count else c.Count := by
  unfold checkLineWrap; split_ifs <;> rfl

theorem checkLineWrap_ExampleLine (l : String) (c : PatternCheck) :
    (checkLineWrap l c).ExampleLine =
      if c.ExampleLine = "" ∧ c.Pattern.MatchString l = true then l else c.ExampleLine := by
  unfold checkLineWrap; split_ifs <;> simp_all

theorem scanLinesWrap_eq_map (lines : List String) (checks : List PatternCheck) :
    scanLinesWrap lines checks = checks.map (foldCheckWrap lines) := by
  induction lines generalizing checks with
  | nil =>
    have h : foldCheckWrap [] = id := rfl
    simp [scanLinesWrap, h]
  | cons l ls ih =>
    have h := ih (scanLineWrap checks l)
    simp only [scanLinesWrap, List.foldl_cons] at h ⊢
    rw [h]
    simp [scanLineWrap, foldCheckWrap]

theorem foldCheckWrap_Pattern (lines : List String) (c : PatternCheck) :
    (foldCheckWrap lines c).Pattern = c.Pattern := by
  induction lines generalizing c with
  | nil => rfl
  | cons l ls ih =>
    have h := ih (checkLineWrap l c)
    simp only [foldCheckWrap, List.foldl_cons] at h ⊢
    rw [h, checkLineWrap_Pattern]

theorem foldCheckWrap_ErrorMessage (lines : List String) (c : PatternCheck) :
    (foldCheckWrap lines c).ErrorMessage = c.ErrorMessage := by
  induction lines generalizing c with
  | nil => rfl
  | cons l ls ih =>
    have h := ih (checkLineWrap l c)
    simp only [foldCheckWrap, List.foldl_cons] at h ⊢
    rw [h, checkLineWrap_ErrorMessage]

theorem foldCheckWrap_ExampleLine (lines : List String) (c : PatternCheck) :
    (foldCheckWrap lines c).ExampleLine =
      if c.ExampleLine = "" then (firstNonEmptyMatch c.Pattern lines).getD ""
      else c.ExampleLine := by
  induction lines generalizing c with
  | nil => by_cases h : c.ExampleLine = "" <;> simp [foldCheckWrap, firstNonEmptyMatch, h]
  | cons l ls ih =>
    have h := ih (checkLineWrap l c)
    simp only [foldCheckWrap, List.foldl_cons] at h ⊢
    rw [h, checkLineWrap_Pattern, checkLineWrap_ExampleLine]
    simp only [firstNonEmptyMatch, List.find?_cons]
    by_cases he : c.ExampleLine = "" <;> by_cases hm : c.Pattern.MatchString l = true <;>
      by_cases hl : l = "" <;> simp_all

/-- A `Count` inside the range of the 64-bit `int` leaves a file as the wrapped sum of
its value and the number of matching lines. -/
theorem foldCheckWrap_Count_wrap (lines : List String) (c : PatternCheck)
    (h1 : minInt ≤ c.Count) (h2 : c.Count ≤ maxInt) :
    (foldCheckWrap lines c).Count = wrapInt (c.Count + (matchCount c.Pattern lines : Nat)) := by
  induction lines generalizing c with
  | nil =>
    simp only [foldCheckWrap, List.foldl_nil, matchCount, List.countP_nil, Nat.cast_zero,
      add_zero]
    exact (wrapInt_of_range _ h1 h2).symm
  | cons l ls ih =>
    have hstep : foldCheckWrap (l :: ls) c = foldCheckWrap ls (checkLineWrap l c) := rfl
    rw [hstep]
    by_cases hm : c.Pattern.MatchString l = true
    · have hc : (checkLineWrap l c).Count = incInt c.Count := by
        rw [checkLineWrap_Count, if_pos hm]
      have h := ih (checkLineWrap l c) (by rw [hc]; exact minInt_le_wrapInt _)
        (by rw [hc]; exact wrapInt_le_maxInt _)
      rw [h, checkLineWrap_Pattern, hc, wrapInt_incInt_add]
      simp only [matchCount, List.countP_cons, hm, if_true, Nat.cast_add, Nat.cast_one]
    · have hm' : c.Pattern.MatchString l = false := by simpa using hm
      have hc : checkLineWrap l c = c := by
        unfold checkLineWrap
        simp [hm']
      rw [hc, ih c h1 h2]
      simp [matchCount, List.countP_cons, hm']

/-- Below the limit the 64-bit counter is the sum of its value and the number of
matching lines. -/
theorem foldCheckWrap_Count (lines : List String) (c : PatternCheck)
    (h1 : minInt ≤ c.Count) (h2 : c.Count + (matchCount c.Pattern lines : Nat) ≤ maxInt) :
    (foldCheckWrap lines c).Count = c.Count + (matchCount c.Pattern lines : Nat) := by
  have hn : (0 : Int) ≤ (matchCount c.Pattern lines : Nat) := Int.natCast_nonneg _
  rw [foldCheckWrap_Count_wrap lines c h1 (by omega)]
  exact wrapInt_of_range _ (by omega) h2

/-- Whatever the lines, the counter leaves a file at least as large as the smaller of its
value and `minInt`. -/
theorem foldCheckWrap_Count_ge (lines : List String) (c : PatternCheck) :
    min c.Count minInt ≤ (foldCheckWrap lines c).Count := by
  induction lines generalizing c with
  | nil => exact min_le_left _ _
  | cons l ls ih =>
    have hstep : foldCheckWrap (l :: ls) c = foldCheckWrap ls (checkLineWrap l c) := rfl
    rw [hstep]
    refine le_trans ?_ (ih (checkLineWrap l c))
    rw [checkLineWrap_Count]
    split_ifs
    · exact le_min (le_trans (min_le_right _ _) (minInt_le_wrapInt _)) (min_le_right _ _)
    · exact le_refl _

/-- A counter that does not overflow in a file is not lowered by it. -/
theorem foldCheckWrap_Count_mono (lines : List String) (c : PatternCheck)
    (h : c.Count + (matchCount c.Pattern lines : Nat) ≤ maxInt) :
    c.Count ≤ (foldCheckWrap lines c).Count := by
  by_cases h1 : minInt ≤ c.Count
  · rw [foldCheckWrap_Count lines c h1 h]
    have hn : (0 : Int) ≤ (matchCount c.Pattern lines : Nat) := Int.natCast_nonneg _
    omega
  · have h2 := foldCheckWrap_Count_ge lines c
    rw [min_eq_left (by omega)] at h2
    exact h2

/-- Below the limit the scanner with the 64-bit counter and the scanner with the
unbounded counter do the same to a check. -/
theorem foldCheckWrap_eq_foldCheck (lines : List String) (c : PatternCheck)
    (h1 : minInt ≤ c.Count) (h2 : c.Count + (matchCount c.Pattern lines : Nat) ≤ maxInt) :
    foldCheckWrap lines c = foldCheck lines c := by
  have e1 : foldCheckWrap lines c =
      ⟨(foldCheckWrap lines c).Pattern, (foldCheckWrap lines c).ErrorMessage,
        (foldCheckWrap lines c).Count, (foldCheckWrap lines c).ExampleLine⟩ := rfl
  have e2 : foldCheck lines c =
      ⟨(foldCheck lines c).Pattern, (foldCheck lines c).ErrorMessage,
        (foldCheck lines c).Count, (foldCheck lines c).ExampleLine⟩ := rfl
  rw [e1, e2, foldCheckWrap_Pattern, foldCheckWrap_ErrorMessage, foldCheckWrap_ExampleLine,
    foldCheckWrap_Count lines c h1 h2, foldCheck_Pattern, foldCheck_ErrorMessage,
    foldCheck_ExampleLine, foldCheck_Count]

theorem foldCheckWrap_append (A B : List String) (c : PatternCheck) :
    foldCheckWrap B (foldCheckWrap A c) = foldCheckWrap (A ++ B) c := by
  simp [foldCheckWrap, List.foldl_append]

theorem filterFile2Wrap_fst_linesOf (fs : FileSystem) (filePath : String)
    (checks : List PatternCheck) :
    (filterFile2Wrap fs filePath checks).1 =
      checks.map (foldCheckWrap (fs.linesOf filePath)) := by
  have h1 : foldCheckWrap [] = id := rfl
  unfold filterFile2Wrap FileSystem.linesOf
  cases h : fs.openFile filePath with
  | ok file =>
    simp only
    split <;> simp [scanLinesWrap_eq_map]
  | error e => simp [h1]

theorem scanFilesWrap_eq_map (fs : FileSystem) (files : List String)
    (checks : List PatternCheck) :
    scanFilesWrap fs files checks = checks.map (foldCheckWrap (scannedLines fs files)) := by
  induction files generalizing checks with
  | nil =>
    have h1 : foldCheckWrap [] = id := rfl
    simp [scanFilesWrap, scannedLines, h1]
  | cons f fs' ih =>
    have h := ih ((filterFile2Wrap fs f checks).1)
    simp only [scanFilesWrap, List.foldl_cons] at h ⊢
    rw [h, filterFile2Wrap_fst_linesOf, List.map_map]
    apply List.map_congr_left
    intro c _
    simp [scannedLines, List.flatMap_cons, foldCheckWrap_append]

/-- Below the limit `filterFile2` with the 64-bit counter returns the checks of
`filterFile2` with the unbounded counter. -/
theorem filterFile2Wrap_eq_filterFile2 (fs : FileSystem) (filePath : String)
    (checks : List PatternCheck)
    (h : ∀ c ∈ checks, minInt ≤ c.Count ∧
      c.Count + (matchCount c.Pattern (fs.linesOf filePath) : Nat) ≤ maxInt) :
    (filterFile2Wrap fs filePath checks).1 = (filterFile2 fs filePath checks).1 := by
  rw [filterFile2Wrap_fst_linesOf, filterFile2_fst_linesOf]
  apply List.map_congr_left
  intro c hc
  exact foldCheckWrap_eq_foldCheck _ c (h c hc).1 (h c hc).2

/-- A file of `n + 1` lines "b" takes the check for `b` from 0 to the wrapped value of
`n + 1`, with the line "b" as example. -/
theorem foldCheckWrap_replicate (n : Nat) :
    (foldCheckWrap (List.replicate (n + 1) "b") ⟨matchB, "b", 0, ""⟩).Count =
        wrapInt ((n : Int) + 1) ∧
      (foldCheckWrap (List.replicate (n + 1) "b") ⟨matchB, "b", 0, ""⟩).ExampleLine = "b" := by
  have hb : matchB.MatchString "b" = true := by decide
  constructor
  · rw [foldCheckWrap_Count_wrap _ _ (by decide) (by decide)]
    simp only [matchCount, List.countP_replicate, hb, if_true]
    simp
  · rw [foldCheckWrap_ExampleLine, if_pos rfl]
    simp only [firstNonEmptyMatch, List.find?_replicate]
    rw [if_neg (Nat.succ_ne_zero n), if_pos (by decide)]
    rfl

/-- C10, as stated, fails where the Go `int` overflows. A check that enters file "B"
(line "xb") with the pattern `b` and Count 2^63 - 1 leaves it with Count -2^63: the
call of `filterFile2` has lowered the Count. And from a check with Count 0 and an empty
ExampleLine, a file of 2^63 lines "b" leaves the ExampleLine "b" with Count -2^63, which
is not >= 1. -/
theorem C10_counterexample :
    sampleFS.openFile "B" = .ok ⟨["xb"], none⟩ ∧
    (filterFile2Wrap sampleFS "B" [⟨matchB, "b", 9223372036854775807, "b"⟩]).1 =
      [⟨matchB, "b", -9223372036854775808, "b"⟩] ∧
    ¬ ((9223372036854775807 : Int) ≤ -9223372036854775808) ∧
    (scanFilesWrap floodFS ["F"] [⟨matchB, "b", 0, ""⟩]).map
        (fun c => (c.Count, c.ExampleLine)) = [(-9223372036854775808, "b")] ∧
    ¬ ((1 : Int) ≤ -9223372036854775808) := by
  refine ⟨rfl, by decide, by decide, ?_, by decide⟩
  have hl : scannedLines floodFS ["F"] = List.replicate (9223372036854775807 + 1) "b" := by
    unfold scannedLines
    rw [List.flatMap_cons, List.flatMap_nil, List.append_nil]
    rfl
  rw [scanFilesWrap_eq_map, hl, List.map_cons, List.map_nil, List.map_cons, List.map_nil,
    (foldCheckWrap_replicate 9223372036854775807).1,
    (foldCheckWrap_replicate 9223372036854775807).2]
  have hw : wrapInt (((9223372036854775807 : Nat) : Int) + 1) = -9223372036854775808 := by
    decide
  rw [hw]

/-- C10 (amended): `filterFile2` keeps the number and the order of the checks and the
Pattern and the ErrorMessage of each, and it does not lower a Count that the matching
lines of the file do not take past 2^63 - 1, the largest Go `int`; and from checks that
all start with Count = 0 and an empty ExampleLine, after any sequence of files every
check with a non-empty ExampleLine has an ExampleLine that is a line of a scanned file
and matches the check's own Pattern, and it has Count >= 1 when at most 2^63 - 1 of the
scanned lines match that Pattern. -/
theorem C10_scan_invariant (fs : FileSystem) :
    (∀ (filePath : String) (checks : List PatternCheck),
        (filterFile2Wrap fs filePath checks).1.length = checks.length ∧
        ∀ (i : Nat) (c : PatternCheck), checks[i]? = some c →
          ∃ c', (filterFile2Wrap fs filePath checks).1[i]? = some c' ∧
            c'.Pattern = c.Pattern ∧ c'.ErrorMessage = c.ErrorMessage ∧
            (c.Count + (matchCount c.Pattern (fs.linesOf filePath) : Nat) ≤ maxInt →
              c.Count ≤ c'.Count)) ∧
    (∀ (files : List String) (checks : List PatternCheck),
        (∀ c ∈ checks, c.Count = 0 ∧ c.ExampleLine = "") →
        ∀ c' ∈ scanFilesWrap fs files checks, c'.ExampleLine ≠ "" →
          (((matchCount c'.Pattern (scannedLines fs files) : Nat) : Int) ≤ maxInt →
            1 ≤ c'.Count) ∧
          c'.Pattern.MatchString c'.ExampleLine = true ∧
            ∃ f ∈ files, ∃ file, fs.openFile f = .ok file ∧
              c'.ExampleLine ∈ file.lines) := by
  constructor
  · intro filePath checks
    rw [filterFile2Wrap_fst_linesOf]
    refine ⟨by simp, ?_⟩
    intro i c hc
    refine ⟨foldCheckWrap (fs.linesOf filePath) c, ?_, foldCheckWrap_Pattern _ _,
      foldCheckWrap_ErrorMessage _ _, foldCheckWrap_Count_mono _ c⟩
    rw [List.getElem?_map, hc]; rfl
  · intro files checks h0 c' hc' hne
    rw [scanFilesWrap_eq_map] at hc'
    obtain ⟨c, hc, rfl⟩ := List.mem_map.mp hc'
    obtain ⟨hcount, hex⟩ := h0 c hc
    rw [foldCheckWrap_ExampleLine, if_pos hex] at hne ⊢
    rw [foldCheckWrap_Pattern]
    cases hf : firstNonEmptyMatch c.Pattern (scannedLines fs files) with
    | none => simp [hf] at hne
    | some l =>
      obtain ⟨hmem, hmatch, _⟩ := firstNonEmptyMatch_some _ _ _ hf
      have hpos := matchCount_pos_of_mem _ _ _ hmem hmatch
      refine ⟨?_, by simpa using hmatch, ?_⟩
      · intro hle
        rw [foldCheckWrap_Count _ c (by rw [hcount]; decide) (by rw [hcount]; omega), hcount]
        omega
      · simpa using mem_scannedLines fs files l hmem

/-- Instance of C10 (amended): file "B" does not lower the Count 5 of a check for `b`,
and the files "E", "missing", "A", "B" scanned from two fresh checks. -/
theorem C10_scan_invariant_witness :
    (∃ c', (filterFile2Wrap sampleFS "B" [⟨matchB, "b", 5, "b"⟩]).1[0]? = some c' ∧
        c'.Pattern = matchB ∧ c'.ErrorMessage = "b" ∧ (5 : Int) ≤ c'.Count) ∧
    (∀ c' ∈ scanFilesWrap sampleFS ["E", "missing", "A", "B"]
        [⟨matchAll, "m", 0, ""⟩, ⟨matchB, "b", 0, ""⟩],
      c'.ExampleLine ≠ "" →
        1 ≤ c'.Count ∧ c'.Pattern.MatchString c'.ExampleLine = true ∧
          ∃ f ∈ ["E", "missing", "A", "B"], ∃ file, sampleFS.openFile f = .ok file ∧
            c'.ExampleLine ∈ file.lines) := by
  constructor
  · obtain ⟨c', h1, h2, h3, h4⟩ :=
      ((C10_scan_invariant sampleFS).1 "B" [⟨matchB, "b", 5, "b"⟩]).2 0
        ⟨matchB, "b", 5, "b"⟩ rfl
    exact ⟨c', h1, h2, h3, h4 (by decide)⟩
  · intro c' hc' hne
    have h := (C10_scan_invariant sampleFS).2 ["E", "missing", "A", "B"]
      [⟨matchAll, "m", 0, ""⟩, ⟨matchB, "b", 0, ""⟩] (by decide) c' hc' hne
    refine ⟨h.1 ?_, h.2⟩
    have hlen := matchCount_le_length c'.Pattern
      (scannedLines sampleFS ["E", "missing", "A", "B"])
    have hl : (scannedLines sampleFS ["E", "missing", "A", "B"]).length = 4 := by decide
    unfold maxInt
    omega

/-! ## sorting -/

theorem lexLt_irrefl (a : List Char) : lexLt a a = false := by
  induction a with
  | nil => rfl
  | cons x xs ih => simp [lexLt, ih]

theorem lexLt_asymm (a b : List Char) (h : lexLt a b = true) : lexLt b a = false := by
  induction a generalizing b with
  | nil => cases b <;> simp_all [lexLt]
  | cons x xs ih =>
    cases b with
    | nil => simp [lexLt] at h
    | cons y ys =>
      simp only [lexLt] at h ⊢
      by_cases hxy : x < y
      · simp [hxy, lt_asymm hxy]
      · by_cases hyx : y < x
        · simp [hxy, hyx] at h
        · simp only [hxy, hyx, if_false] at h ⊢
          exact ih ys h

theorem lexLt_trichotomy (a b : List Char) (h1 : lexLt a b = false)
    (h2 : lexLt b a = false) : a = b := by
  induction a generalizing b with
  | nil => cases b <;> simp_all [lexLt]
  | cons x xs ih =>
    cases b with
    | nil => simp [lexLt] at h2
    | cons y ys =>
      simp only [lexLt] at h1 h2
      by_cases hxy : x < y
      · simp [hxy] at h1
      · by_cases hyx : y < x
        · simp [hyx] at h2
        · simp only [hxy, hyx, if_false] at h1 h2
          have hx : x = y := le_antisymm (not_lt.mp hyx) (not_lt.mp hxy)
          rw [hx, ih ys h1 h2]

theorem lexLt_trans (a b c : List Char) (h1 : lexLt a b = true) (h2 : lexLt b c = true) :
    lexLt a c = true := by
  induction a generalizing b c with
  | nil =>
    cases b with
    | nil => simp [lexLt] at h1
    | cons y ys =>
      cases c with
      | nil => simp [lexLt] at h2
      | cons z zs => rfl
  | cons x xs ih =>
    cases b with
    | nil => simp [lexLt] at h1
    | cons y ys =>
      cases c with
      | nil => simp [lexLt] at h2
      | cons z zs =>
        simp only [lexLt] at h1 h2 ⊢
        by_cases hxy : x < y
        · by_cases hyz : y < z
          · simp [lt_trans hxy hyz]
          · by_cases hzy : z < y
            · simp [hyz, hzy] at h2
            · have hy : y = z := le_antisymm (not_lt.mp hzy) (not_lt.mp hyz)
              subst hy
              simp [hxy]
        · by_cases hyx : y < x
          · simp [hxy, hyx] at h1
          · have hx : x = y := le_antisymm (not_lt.mp hyx) (not_lt.mp hxy)
            subst hx
            simp only [hxy, if_false] at h1
            by_cases hxz : x < z
            · simp [hxz]
            · by_cases hzx : z < x
              · simp [hxz, hzx] at h2
              · simp only [hxz, hzx, if_false] at h2 ⊢
                exact ih ys zs h1 h2

theorem lexLt_append_left (p a b : List Char) : lexLt (p ++ a) (p ++ b) = lexLt a b := by
  induction p with
  | nil => rfl
  | cons x xs ih => simp [lexLt, ih]

theorem lowerGE_total (tbl : Char → Char) (a b : String) :
    lowerGE tbl a b ∨ lowerGE tbl b a := by
  unfold lowerGE
  cases h : lexLt (ToLower tbl a).toList (ToLower tbl b).toList with
  | false => exact Or.inl rfl
  | true => exact Or.inr (lexLt_asymm _ _ h)

theorem lowerGE_trans (tbl : Char → Char) (a b c : String)
    (h1 : lowerGE tbl a b) (h2 : lowerGE tbl b c) : lowerGE tbl a c := by
  unfold lowerGE at *
  cases hac : lexLt (ToLower tbl a).toList (ToLower tbl c).toList with
  | false => rfl
  | true =>
    exfalso
    cases hcb : lexLt (ToLower tbl c).toList (ToLower tbl b).toList with
    | true =>
      have := lexLt_trans _ _ _ hac hcb
      exact Bool.false_ne_true (h1.symm.trans this)
    | false =>
      have hbc := lexLt_trichotomy _ _ h2 hcb
      rw [hbc] at h1
      exact Bool.false_ne_true (h1.symm.trans hac)

theorem cmpLogFiles_neg_iff (tbl : Char → Char) (a b : String) :
    cmpLogFiles tbl a b < 0 ↔ ¬ lowerGE tbl b a := by
  unfold cmpLogFiles Compare lowerGE
  by_cases he : ToLower tbl a = ToLower tbl b
  · rw [if_pos he, he, lexLt_irrefl]
    simp
  · rw [if_neg he]
    cases hab : lexLt (ToLower tbl a).toList (ToLower tbl b).toList with
    | true =>
      rw [lexLt_asymm _ _ hab]
      simp
    | false =>
      cases hba : lexLt (ToLower tbl b).toList (ToLower tbl a).toList with
      | true => simp
      | false =>
        exfalso
        apply he
        have := lexLt_trichotomy _ _ hab hba
        exact String.ext this

theorem insertLast_perm {α : Type} (cmp : α → α → Int) (x : α) (l : List α) :
    (insertLast cmp x l).Perm (x :: l) := by
  induction l with
  | nil => exact List.Perm.refl _
  | cons y ys ih =>
    unfold insertLast
    split_ifs
    · exact ((List.Perm.cons y ih).trans (List.Perm.swap x y ys))
    · exact List.Perm.refl _

theorem SortFunc_perm {α : Type} (cmp : α → α → Int) (data : List α) :
    (SortFunc cmp data).Perm data := by
  have h : ∀ (l acc : List α),
      (l.foldl (fun sorted x => insertLast cmp x sorted) acc).Perm (l.reverse ++ acc) := by
    intro l
    induction l with
    | nil => intro acc; exact List.Perm.refl _
    | cons x xs ih =>
      intro acc
      simp only [List.foldl_cons, List.reverse_cons, List.append_assoc, List.singleton_append]
      exact (ih _).trans (List.Perm.append_left _ (insertLast_perm cmp x acc))
  unfold SortFunc
  have h1 := h data []
  simp only [List.append_nil] at h1
  exact (List.reverse_perm _).trans (h1.trans (List.reverse_perm _))

/-- With `r a b` read as "`a` may stand before `b`": if `cmp x y < 0` exactly when `y`
may not stand before `x`, the insertion keeps the sorted part sorted. -/
theorem insertLast_pairwise {α : Type} (cmp : α → α → Int) (r : α → α → Prop)
    (htotal : ∀ a b, r a b ∨ r b a) (htrans : ∀ a b c, r a b → r b c → r a c)
    (hcmp : ∀ a b, cmp a b < 0 ↔ ¬ r b a) (x : α) (l : List α)
    (hl : l.Pairwise (fun a b => r b a)) :
    (insertLast cmp x l).Pairwise (fun a b => r b a) := by
  induction l with
  | nil => simp [insertLast]
  | cons y ys ih =>
    rw [List.pairwise_cons] at hl
    unfold insertLast
    split_ifs with hxy
    · rw [List.pairwise_cons]
      refine ⟨?_, ih hl.2⟩
      intro z hz
      rcases List.mem_cons.mp ((insertLast_perm cmp x ys).subset hz) with hzx | hzy
      · subst hzx
        rcases htotal z y with h | h
        · exact h
        · exact absurd h ((hcmp z y).mp hxy)
      · exact hl.1 z hzy
    · have hyx : r y x := by
        by_contra hn
        exact hxy ((hcmp x y).mpr hn)
      rw [List.pairwise_cons]
      refine ⟨?_, List.pairwise_cons.mpr hl⟩
      intro z hz
      rcases List.mem_cons.mp hz with hzy | hzys
      · rw [hzy]; exact hyx
      · exact htrans z y x (hl.1 z hzys) hyx

theorem SortFunc_pairwise {α : Type} (cmp : α → α → Int) (r : α → α → Prop)
    (htotal : ∀ a b, r a b ∨ r b a) (htrans : ∀ a b c, r a b → r b c → r a c)
    (hcmp : ∀ a b, cmp a b < 0 ↔ ¬ r b a) (data : List α) :
    (SortFunc cmp data).Pairwise r := by
  have h : ∀ (l acc : List α), acc.Pairwise (fun a b => r b a) →
      (l.foldl (fun sorted x => insertLast cmp x sorted) acc).Pairwise (fun a b => r b a) := by
    intro l
    induction l with
    | nil => intro acc hacc; exact hacc
    | cons x xs ih =>
      intro acc hacc
      exact ih _ (insertLast_pairwise cmp r htotal htrans hcmp x acc hacc)
  unfold SortFunc
  rw [List.pairwise_reverse]
  exact h data [] List.Pairwise.nil

/-! ## C6 -/

theorem sorted_perm_unique (tbl : Char → Char) (l out : List String)
    (hperm : out.Perm l) (hsorted : out.Pairwise (lowerGE tbl))
    (hnodup : (l.map (ToLower tbl)).Nodup) :
    out = SortFunc (cmpLogFiles tbl) l := by
  have hs := SortFunc_pairwise (cmpLogFiles tbl) (lowerGE tbl) (lowerGE_total tbl)
    (lowerGE_trans tbl) (cmpLogFiles_neg_iff tbl) l
  have hp := SortFunc_perm (cmpLogFiles tbl) l
  refine List.Perm.eq_of_sorted ?_ hsorted hs (hperm.trans hp.symm)
  intro a b ha _ hab hba
  have hal : a ∈ l := hperm.subset ha
  have hbl : b ∈ l := hp.subset ‹b ∈ SortFunc (cmpLogFiles tbl) l›
  have heq : ToLower tbl a = ToLower tbl b := String.ext (lexLt_trichotomy _ _ hab hba)
  exact List.inj_on_of_nodup_map hnodup hal hbl heq

/-- C6, as stated, fails: the paths "LOG/syslog.1" and "log/syslog.1" are equal up to
case, `cmpLogFiles` returns 0 on them, and the sort leaves them in the order they came
in. The same two paths listed in the two orders give two different results, each of them
a permutation in reverse case-insensitive order, so the result is not fixed whatever
the order of the listing. -/
theorem C6_counterexample :
    cmpLogFiles id "LOG/syslog.1" "log/syslog.1" = 0 ∧
    List.Perm ["log/syslog.1", "LOG/syslog.1"] ["LOG/syslog.1", "log/syslog.1"] ∧
    SortFunc (cmpLogFiles id) ["LOG/syslog.1", "log/syslog.1"] =
      ["LOG/syslog.1", "log/syslog.1"] ∧
    SortFunc (cmpLogFiles id) ["log/syslog.1", "LOG/syslog.1"] =
      ["log/syslog.1", "LOG/syslog.1"] ∧
    SortFunc (cmpLogFiles id) ["LOG/syslog.1", "log/syslog.1"] ≠
      SortFunc (cmpLogFiles id) ["log/syslog.1", "LOG/syslog.1"] ∧
    List.Pairwise (lowerGE id) ["LOG/syslog.1", "log/syslog.1"] ∧
    List.Pairwise (lowerGE id) ["log/syslog.1", "LOG/syslog.1"] := by
  refine ⟨by decide, by decide, by decide, by decide, by decide, by decide, by decide⟩

/-- C6 (amended): for every list of paths, sorting with `cmpLogFiles` gives a permutation
of the list in which the lower-cased form of each path is lexicographically greater than
or equal to that of every path after it; when no two paths of the list are equal up to
case, the result is this reverse case-insensitive order whatever the order of the input:
any rearrangement of the paths sorts to the same list, the only permutation in that
order; and the files "syslog", "syslog.1", "SYSLOG.2.gz" come out as "SYSLOG.2.gz",
"syslog.1", "syslog". -/
theorem C6_sort_reverse_case_insensitive (tbl : Char → Char) :
    (∀ l : List String,
        (SortFunc (cmpLogFiles tbl) l).Perm l ∧
          (SortFunc (cmpLogFiles tbl) l).Pairwise (lowerGE tbl)) ∧
    (∀ l l' : List String, l'.Perm l → (l.map (ToLower tbl)).Nodup →
        SortFunc (cmpLogFiles tbl) l' = SortFunc (cmpLogFiles tbl) l ∧
          ∀ out : List String, out.Perm l → out.Pairwise (lowerGE tbl) →
            out = SortFunc (cmpLogFiles tbl) l) ∧
    SortFunc (cmpLogFiles tbl) ["syslog", "syslog.1", "SYSLOG.2.gz"] =
      ["SYSLOG.2.gz", "syslog.1", "syslog"] := by
  refine ⟨fun l => ⟨SortFunc_perm _ l, ?_⟩, ?_, ?_⟩
  · exact SortFunc_pairwise (cmpLogFiles tbl) (lowerGE tbl) (lowerGE_total tbl)
      (lowerGE_trans tbl) (cmpLogFiles_neg_iff tbl) l
  · intro l l' hperm hnodup
    refine ⟨?_, fun out ho hs => sorted_perm_unique tbl l out ho hs hnodup⟩
    have hs' := SortFunc_pairwise (cmpLogFiles tbl) (lowerGE tbl) (lowerGE_total tbl)
      (lowerGE_trans tbl) (cmpLogFiles_neg_iff tbl) l'
    exact sorted_perm_unique tbl l _ ((SortFunc_perm _ l').trans hperm) hs' hnodup
  · rfl

/-- Instance of C6 (amended): two orders of the same three paths sort to the same list. -/
theorem C6_sort_reverse_case_insensitive_witness :
    SortFunc (cmpLogFiles id) ["syslog.1", "SYSLOG.2.gz", "syslog"] =
        SortFunc (cmpLogFiles id) ["syslog", "syslog.1", "SYSLOG.2.gz"] ∧
      ∀ out : List String, out.Perm ["syslog", "syslog.1", "SYSLOG.2.gz"] →
        out.Pairwise (lowerGE id) →
        out = SortFunc (cmpLogFiles id) ["syslog", "syslog.1", "SYSLOG.2.gz"] :=
  (C6_sort_reverse_case_insensitive id).2.1 ["syslog", "syslog.1", "SYSLOG.2.gz"]
    ["syslog.1", "SYSLOG.2.gz", "syslog"] (by decide) (by decide)

/-! ## paths -/

theorem cleanChars_eq (path : List Char) :
    cleanChars path =
      if rootChars (isRooted path) ++ joinSep (cleanStack path).reverse = [] then ['.']
      else rootChars (isRooted path) ++ joinSep (cleanStack path).reverse := by
  simp only [cleanChars, cleanStack, isRooted, rootChars, decide_eq_true_eq]

theorem splitSep_ne_nil (l : List Char) : splitSep l ≠ [] := by
  cases l with
  | nil => simp [splitSep]
  | cons c cs =>
    unfold splitSep
    split_ifs
    · simp
    · split <;> simp

theorem splitSep_of_no_sep (n : List Char) (h : '/' ∉ n) : splitSep n = [n] := by
  induction n with
  | nil => rfl
  | cons c cs ih =>
    have hc : c ≠ '/' := fun hc => h (by simp [hc])
    have hcs : '/' ∉ cs := fun hcs => h (List.mem_cons_of_mem _ hcs)
    simp [splitSep, hc, ih hcs]

theorem splitSep_append_sep (a b : List Char) :
    splitSep (a ++ '/' :: b) = splitSep a ++ splitSep b := by
  induction a with
  | nil => simp [splitSep]
  | cons c cs ih =>
    by_cases hc : c = '/'
    · simp [splitSep, hc, ih]
    · obtain ⟨e, es, he⟩ := List.exists_cons_of_ne_nil (splitSep_ne_nil cs)
      simp [splitSep, hc, ih, he]

theorem cleanStep_plain (rooted : Bool) (st : List (List Char)) (n : List Char)
    (hn : PlainElem n) : cleanStep rooted st n = n :: st := by
  obtain ⟨h1, _, h3, h4⟩ := hn
  simp [cleanStep, h1, h3, h4]

theorem joinSep_append_singleton (l : List (List Char)) (n : List Char) :
    joinSep (l ++ [n]) = l.flatMap (· ++ ['/']) ++ n := by
  induction l with
  | nil => simp [joinSep]
  | cons e es ih =>
    cases es with
    | nil => simp [joinSep]
    | cons e2 es2 =>
      have h1 : joinSep (e :: e2 :: es2 ++ [n]) = e ++ '/' :: joinSep (e2 :: es2 ++ [n]) := rfl
      rw [h1, ih]
      simp

theorem isRooted_append (a b : List Char) (ha : a ≠ []) :
    isRooted (a ++ b) = isRooted a := by
  cases a with
  | nil => exact absurd rfl ha
  | cons c cs => rfl

/-- Cleaning `dir/n` for a plain element `n`: the cleaned directory, then `n`. -/
theorem cleanChars_join_plain (dp n : List Char) (hdp : dp ≠ []) (hn : PlainElem n) :
    cleanChars (dp ++ '/' :: n) = dirPrefix dp ++ n := by
  have hst : cleanStack (dp ++ '/' :: n) = n :: cleanStack dp := by
    simp only [cleanStack, isRooted_append dp _ hdp, splitSep_append_sep,
      splitSep_of_no_sep n hn.2.1, List.foldl_append, List.foldl_cons, List.foldl_nil]
    exact cleanStep_plain _ _ n hn
  rw [cleanChars_eq, hst, isRooted_append dp _ hdp, List.reverse_cons,
    joinSep_append_singleton]
  have hne : rootChars (isRooted dp) ++
      ((cleanStack dp).reverse.flatMap (· ++ ['/']) ++ n) ≠ [] := by
    simp [hn.1]
  rw [if_neg hne]
  simp [dirPrefix]

theorem cleanChars_plain (n : List Char) (hn : PlainElem n) : cleanChars n = n := by
  have hr : isRooted n = false := by
    obtain ⟨h1, h2, _, _⟩ := hn
    cases n with
    | nil => exact absurd rfl h1
    | cons c cs =>
      have hc : c ≠ '/' := fun hc => h2 (by simp [hc])
      simp [isRooted, hc]
  have hst : cleanStack n = [n] := by
    simp only [cleanStack, splitSep_of_no_sep n hn.2.1, List.foldl_cons, List.foldl_nil]
    exact cleanStep_plain _ _ n hn
  rw [cleanChars_eq, hst, hr]
  simp [rootChars, joinSep, hn.1]

theorem dirPrefix_nil : dirPrefix [] = [] := by
  simp [dirPrefix, cleanStack, isRooted, rootChars, splitSep, cleanStep]

theorem GoodStack.tail {rooted : Bool} {e : List Char} {st : List (List Char)}
    (h : GoodStack rooted (e :: st)) : GoodStack rooted st :=
  ⟨fun x hx => h.1 x (List.mem_cons_of_mem _ hx), (List.pairwise_cons.mp h.2.1).2,
    fun hr x hx => h.2.2 hr x (List.mem_cons_of_mem _ hx)⟩

theorem GoodStack.suffix {rooted : Bool} (xs : List (List Char)) {st : List (List Char)}
    (h : GoodStack rooted (xs ++ st)) : GoodStack rooted st := by
  induction xs with
  | nil => exact h
  | cons x xs ih => exact ih (GoodStack.tail h)

theorem cleanStep_skip (rooted : Bool) (st : List (List Char)) (e : List Char)
    (h : e = [] ∨ e = ['.']) : cleanStep rooted st e = st := by
  simp [cleanStep, h]

theorem cleanStep_dotdot_nil (rooted : Bool) :
    cleanStep rooted [] ['.', '.'] = if rooted then [] else [['.', '.']] := by
  simp [cleanStep]

theorem cleanStep_dotdot_cons (rooted : Bool) (top : List Char) (rest : List (List Char)) :
    cleanStep rooted (top :: rest) ['.', '.'] =
      if top = ['.', '.'] then ['.', '.'] :: top :: rest else rest := by
  simp [cleanStep]

theorem cleanStep_other (rooted : Bool) (st : List (List Char)) (e : List Char)
    (h1 : e ≠ []) (h2 : e ≠ ['.']) (h3 : e ≠ ['.', '.']) :
    cleanStep rooted st e = e :: st := by
  simp [cleanStep, h1, h2, h3]

theorem goodStack_push (rooted : Bool) (st : List (List Char)) (e : List Char)
    (h : GoodStack rooted st) (h1 : e ≠ []) (h2 : e ≠ ['.']) (h3 : '/' ∉ e)
    (h4 : e = ['.', '.'] → rooted = false ∧ ∀ x ∈ st, x = ['.', '.']) :
    GoodStack rooted (e :: st) := by
  refine ⟨?_, ?_, ?_⟩
  · intro x hx
    rcases List.mem_cons.mp hx with hx' | hx'
    · subst hx'; exact ⟨h1, h2, h3⟩
    · exact h.1 x hx'
  · rw [List.pairwise_cons]
    exact ⟨fun x hx he => (h4 he).2 x hx, h.2.1⟩
  · intro hr x hx
    rcases List.mem_cons.mp hx with hx' | hx'
    · subst hx'
      intro he
      have := (h4 he).1
      rw [hr] at this
      cases this
    · exact h.2.2 hr x hx'

theorem goodStack_cleanStep (rooted : Bool) (st : List (List Char)) (e : List Char)
    (h : GoodStack rooted st) (he : '/' ∉ e) : GoodStack rooted (cleanStep rooted st e) := by
  by_cases h1 : e = [] ∨ e = ['.']
  · rw [cleanStep_skip rooted st e h1]; exact h
  · have h1a : e ≠ [] := fun h0 => h1 (Or.inl h0)
    have h1b : e ≠ ['.'] := fun h0 => h1 (Or.inr h0)
    by_cases h2 : e = ['.', '.']
    · subst h2
      cases st with
      | nil =>
        rw [cleanStep_dotdot_nil]
        cases rooted with
        | true => exact h
        | false =>
          exact goodStack_push _ _ _ h h1a h1b he (fun _ => ⟨rfl, by simp⟩)
      | cons top rest =>
        rw [cleanStep_dotdot_cons]
        by_cases h3 : top = ['.', '.']
        · rw [if_pos h3]
          refine goodStack_push _ _ _ h h1a h1b he (fun _ => ⟨?_, ?_⟩)
          · cases rooted with
            | true => exact absurd h3 (h.2.2 rfl top (List.mem_cons_self _ _))
            | false => rfl
          · intro x hx
            rcases List.mem_cons.mp hx with hx' | hx'
            · rw [hx', h3]
            · exact (List.pairwise_cons.mp h.2.1).1 x hx' h3
        · rw [if_neg h3]; exact h.tail
    · rw [cleanStep_other rooted st e h1a h1b h2]
      exact goodStack_push _ _ _ h h1a h1b he (fun h0 => absurd h0 h2)

theorem splitSep_no_sep (l : List Char) : ∀ e ∈ splitSep l, '/' ∉ e := by
  induction l with
  | nil => simp [splitSep]
  | cons c cs ih =>
    by_cases hc : c = '/'
    · intro e he
      simp only [splitSep, hc, if_true, List.mem_cons] at he
      rcases he with he | he
      · subst he; simp
      · exact ih e he
    · obtain ⟨x, xs, hx⟩ := List.exists_cons_of_ne_nil (splitSep_ne_nil cs)
      intro e he
      simp only [splitSep, hc, if_false, hx, List.mem_cons] at he
      rw [hx] at ih
      rcases he with he | he
      · subst he
        intro hmem
        rcases List.mem_cons.mp hmem with h1 | h1
        · exact hc h1.symm
        · exact ih x (List.mem_cons_self _ _) h1
      · exact ih e (List.mem_cons_of_mem _ he)

theorem goodStack_foldl (rooted : Bool) (l : List (List Char)) (st : List (List Char))
    (h : GoodStack rooted st) (hl : ∀ e ∈ l, '/' ∉ e) :
    GoodStack rooted (l.foldl (cleanStep rooted) st) := by
  induction l generalizing st with
  | nil => exact h
  | cons e es ih =>
    exact ih _ (goodStack_cleanStep rooted st e h (hl e (List.mem_cons_self _ _)))
      (fun x hx => hl x (List.mem_cons_of_mem _ hx))

theorem goodStack_nil (rooted : Bool) : GoodStack rooted [] :=
  ⟨by simp, by simp, by simp⟩

theorem goodStack_cleanStack (dp : List Char) : GoodStack (isRooted dp) (cleanStack dp) :=
  goodStack_foldl _ _ _ (goodStack_nil _) (splitSep_no_sep dp)

theorem cleanStep_of_good (rooted : Bool) (st : List (List Char)) (e : List Char)
    (h : GoodStack rooted (e :: st)) : cleanStep rooted st e = e :: st := by
  obtain ⟨h1, h2, _⟩ := h.1 e (List.mem_cons_self _ _)
  by_cases h3 : e = ['.', '.']
  · subst h3
    have hr : rooted = false := by
      cases rooted with
      | true => exact absurd rfl (h.2.2 rfl _ (List.mem_cons_self _ _))
      | false => rfl
    cases st with
    | nil => rw [cleanStep_dotdot_nil, hr]; rfl
    | cons top rest =>
      have htop : top = ['.', '.'] :=
        (List.pairwise_cons.mp h.2.1).1 top (List.mem_cons_self _ _) rfl
      rw [cleanStep_dotdot_cons, if_pos htop]
  · exact cleanStep_other rooted st e h1 h2 h3

theorem foldl_cleanStep_of_good (rooted : Bool) (l st : List (List Char))
    (h : GoodStack rooted (l.reverse ++ st)) :
    l.foldl (cleanStep rooted) st = l.reverse ++ st := by
  induction l generalizing st with
  | nil => rfl
  | cons e es ih =>
    have h' : GoodStack rooted (es.reverse ++ (e :: st)) := by
      simpa using h
    rw [List.foldl_cons, cleanStep_of_good rooted st e (GoodStack.suffix _ h'), ih _ h']
    simp

theorem splitSep_joinSep (l : List (List Char)) (hne : l ≠ [])
    (hl : ∀ e ∈ l, '/' ∉ e) : splitSep (joinSep l) = l := by
  induction l with
  | nil => exact absurd rfl hne
  | cons e es ih =>
    cases es with
    | nil => simpa [joinSep] using splitSep_of_no_sep e (hl e (List.mem_cons_self _ _))
    | cons e2 es2 =>
      have h1 : joinSep (e :: e2 :: es2) = e ++ '/' :: joinSep (e2 :: es2) := rfl
      rw [h1, splitSep_append_sep, splitSep_of_no_sep e (hl e (List.mem_cons_self _ _)),
        ih (by simp) (fun x hx => hl x (List.mem_cons_of_mem _ hx))]
      rfl

theorem joinSep_cons_cons (c : Char) (cs : List Char) (es : List (List Char)) :
    ∃ t, joinSep ((c :: cs) :: es) = c :: t := by
  cases es with
  | nil => exact ⟨cs, rfl⟩
  | cons e2 es2 => exact ⟨cs ++ '/' :: joinSep (e2 :: es2), rfl⟩

/-- Cleaning a cleaned path changes neither its root nor the kept elements. -/
theorem cleanChars_idem_parts (dp : List Char) :
    cleanChars dp ≠ [] ∧ isRooted (cleanChars dp) = isRooted dp ∧
      cleanStack (cleanChars dp) = cleanStack dp := by
  have hgood := goodStack_cleanStack dp
  rw [cleanChars_eq]
  generalize hl : (cleanStack dp).reverse = l at *
  have hst : cleanStack dp = l.reverse := by rw [← hl]; simp
  rw [hst] at hgood ⊢
  cases hr : isRooted dp with
  | true =>
    rw [hr] at hgood
    have h1 : rootChars true ++ joinSep l = '/' :: joinSep l := rfl
    rw [h1, if_neg (by simp)]
    refine ⟨by simp, rfl, ?_⟩
    have h2 : isRooted ('/' :: joinSep l) = true := rfl
    unfold cleanStack
    rw [h2]
    cases l with
    | nil => simp [joinSep, splitSep, cleanStep]
    | cons e es =>
      have hsp : splitSep ('/' :: joinSep (e :: es)) = [] :: (e :: es) := by
        have := splitSep_joinSep (e :: es) (by simp)
          (fun x hx => (hgood.1 x (List.mem_reverse.mpr hx)).2.2)
        simp [splitSep, this]
      rw [hsp, List.foldl_cons, cleanStep_skip _ _ _ (Or.inl rfl)]
      have := foldl_cleanStep_of_good true (e :: es) [] (by simpa using hgood)
      simpa using this
  | false =>
    rw [hr] at hgood
    have h1 : rootChars false ++ joinSep l = joinSep l := rfl
    rw [h1]
    cases l with
    | nil => simp [joinSep, isRooted, cleanStack, splitSep, cleanStep]
    | cons e es =>
      obtain ⟨he1, _, he3⟩ := hgood.1 e (by simp)
      obtain ⟨c, cs, hc⟩ := List.exists_cons_of_ne_nil he1
      subst hc
      have hcsep : c ≠ '/' := fun h => he3 (by simp [h])
      obtain ⟨t, ht⟩ := joinSep_cons_cons c cs es
      have hroot : isRooted (joinSep ((c :: cs) :: es)) = false := by
        rw [ht]; simp [isRooted, hcsep]
      rw [if_neg (by rw [ht]; simp)]
      refine ⟨by rw [ht]; simp, hroot, ?_⟩
      unfold cleanStack
      rw [hroot, splitSep_joinSep _ (by simp)
        (fun x hx => (hgood.1 x (List.mem_reverse.mpr hx)).2.2)]
      have := foldl_cleanStep_of_good false ((c :: cs) :: es) [] (by simpa using hgood)
      simpa using this

theorem dirPrefix_cleanChars (dp : List Char) : dirPrefix (cleanChars dp) = dirPrefix dp := by
  obtain ⟨_, h2, h3⟩ := cleanChars_idem_parts dp
  simp [dirPrefix, h2, h3]

/-- Joining a plain element to the cleaned directory gives the same path. -/
theorem cleanChars_join_clean (dp n : List Char) (hn : PlainElem n) :
    cleanChars (cleanChars dp ++ '/' :: n) = dirPrefix dp ++ n := by
  rw [cleanChars_join_plain _ n (cleanChars_idem_parts dp).1 hn, dirPrefix_cleanChars]

theorem string_ne_empty_iff (s : String) : s ≠ "" ↔ s.data ≠ [] := by
  rw [Ne, String.ext_iff]

theorem Clean_append_sep (a b : String) :
    Clean (a ++ "/" ++ b) = String.mk (cleanChars (a.data ++ '/' :: b.data)) := by
  unfold Clean
  have h : (a ++ "/" ++ b).toList = a.data ++ '/' :: b.data := by
    show (a ++ "/" ++ b).data = _
    rw [String.data_append, String.data_append]
    simp
  rw [h]

theorem cleanGlobPath_eq (path : String) :
    cleanGlobPath path = String.mk (cleanGlobChars path.data) := by
  unfold cleanGlobPath cleanGlobChars
  by_cases h1 : path.data = []
  · have : path = "" := String.ext h1
    rw [if_pos this, if_pos h1]
  · have h1' : path ≠ "" := (string_ne_empty_iff path).mpr h1
    rw [if_neg h1', if_neg h1]
    by_cases h2 : path.data = ['/']
    · have : path = "/" := String.ext h2
      rw [if_pos this, if_pos h2]
    · have h2' : path ≠ "/" := fun h => h2 (by rw [h])
      rw [if_neg h2', if_neg h2]
      rfl

theorem Join_plain (dirPath n : String) (hn : PlainName n) :
    Join dirPath n = joinedPath dirPath n := by
  unfold Join joinedPath
  by_cases hd : dirPath = ""
  · subst hd
    have hne : n ≠ "" := (string_ne_empty_iff n).mpr hn.1
    rw [if_neg (by simp), if_pos hne]
    show String.mk (cleanChars n.data) = _
    rw [cleanChars_plain n.data hn]
    show _ = String.mk (dirPrefix [] ++ n.data)
    rw [dirPrefix_nil]
    rfl
  · rw [if_pos hd, Clean_append_sep,
      cleanChars_join_plain _ _ ((string_ne_empty_iff dirPath).mp hd) hn]

theorem Join_Clean_plain (dirPath n : String) (hn : PlainName n) :
    Join (Clean dirPath) n = joinedPath dirPath n := by
  have hne : Clean dirPath ≠ "" :=
    (string_ne_empty_iff _).mpr (cleanChars_idem_parts dirPath.data).1
  unfold Join joinedPath
  rw [if_pos hne, Clean_append_sep]
  show String.mk (cleanChars (cleanChars dirPath.data ++ '/' :: n.data)) = _
  rw [cleanChars_join_clean _ _ hn]

theorem splitLast_of_no_sep (n : List Char) (h : '/' ∉ n) : splitLast n = ([], n) := by
  induction n with
  | nil => rfl
  | cons c cs ih =>
    have hc : c ≠ '/' := fun hc => h (by simp [hc])
    have hcs : '/' ∉ cs := fun hcs => h (List.mem_cons_of_mem _ hcs)
    simp [splitLast, ih hcs, hc]

theorem splitLast_append (q n : List Char) (h : '/' ∉ n) :
    splitLast (q ++ '/' :: n) = (q ++ ['/'], n) := by
  induction q with
  | nil => simp [splitLast, splitLast_of_no_sep n h]
  | cons c cs ih =>
    have h1 : splitLast (c :: cs ++ '/' :: n) =
        match splitLast (cs ++ '/' :: n) with
        | ([], f) => if c = '/' then ([c], f) else ([], c :: f)
        | (d, f) => (c :: d, f) := rfl
    rw [h1, ih]
    cases cs <;> rfl

theorem flatMap_sep_eq (l : List (List Char)) (hne : l ≠ []) :
    l.flatMap (· ++ ['/']) = joinSep l ++ ['/'] := by
  have := joinSep_append_singleton l []
  rw [List.append_nil] at this
  rw [← this]
  clear this
  induction l with
  | nil => exact absurd rfl hne
  | cons e es ih =>
    cases es with
    | nil => simp [joinSep]
    | cons e2 es2 =>
      have h1 : joinSep (e :: e2 :: es2 ++ [[]]) = e ++ '/' :: joinSep (e2 :: es2 ++ [[]]) := rfl
      have h2 : joinSep (e :: e2 :: es2) = e ++ '/' :: joinSep (e2 :: es2) := rfl
      rw [h1, h2, ih (by simp)]
      simp

/-- The directory prefix is empty or ends with the separator. -/
theorem dirPrefix_shape (dp : List Char) :
    dirPrefix dp = [] ∨ ∃ q, dirPrefix dp = q ++ ['/'] := by
  unfold dirPrefix
  cases hl : (cleanStack dp).reverse with
  | nil =>
    cases hr : isRooted dp with
    | true => exact Or.inr ⟨[], rfl⟩
    | false => exact Or.inl rfl
  | cons e es =>
    right
    rw [flatMap_sep_eq _ (by simp)]
    exact ⟨rootChars (isRooted dp) ++ joinSep (e :: es), by simp⟩

theorem Split_joinedPath (dirPath n : String) (hn : '/' ∉ n.data) :
    Split (joinedPath dirPath n) = (String.mk (dirPrefix dirPath.data), n) := by
  unfold Split joinedPath
  show (String.mk (splitLast (dirPrefix dirPath.data ++ n.data)).1,
    String.mk (splitLast (dirPrefix dirPath.data ++ n.data)).2) = _
  rcases dirPrefix_shape dirPath.data with h | ⟨q, h⟩
  · rw [h, List.nil_append, splitLast_of_no_sep _ hn]
  · rw [h, List.append_assoc, List.singleton_append, splitLast_append _ _ hn]

theorem cleanGlobChars_dirPrefix (dp : List Char) :
    cleanGlobChars (dirPrefix dp) = cleanChars dp := by
  have hne : ∀ e ∈ (cleanStack dp).reverse, e ≠ [] :=
    fun e he => ((goodStack_cleanStack dp).1 e (List.mem_reverse.mp he)).1
  rw [cleanChars_eq]
  unfold dirPrefix cleanGlobChars
  generalize (cleanStack dp).reverse = l at *
  cases l with
  | nil => cases isRooted dp <;> simp [rootChars, joinSep]
  | cons e es =>
    obtain ⟨c, cs, hc⟩ := List.exists_cons_of_ne_nil (hne e (List.mem_cons_self _ _))
    subst hc
    obtain ⟨t, ht⟩ := joinSep_cons_cons c cs es
    rw [flatMap_sep_eq _ (by simp), ht]
    have h1 : rootChars (isRooted dp) ++ (c :: t ++ ['/']) ≠ [] := by simp
    have h2 : rootChars (isRooted dp) ++ (c :: t ++ ['/']) ≠ ['/'] := by
      cases isRooted dp <;> simp [rootChars]
    rw [if_neg h1, if_neg h2, if_neg (by simp), ← List.append_assoc, List.dropLast_concat]

/-- The glob directory of a joined path is the cleaned directory path. -/
theorem cleanGlobPath_dirPrefix (dirPath : String) :
    cleanGlobPath (String.mk (dirPrefix dirPath.data)) = Clean dirPath := by
  rw [cleanGlobPath_eq]
  show String.mk (cleanGlobChars (dirPrefix dirPath.data)) = String.mk (cleanChars dirPath.data)
  rw [cleanGlobChars_dirPrefix]

/-! ## magic runes -/

theorem hasMeta_eq_false_iff (path : String) :
    hasMeta path = false ↔ ∀ c ∈ path.data, ¬ IsMagic c := by
  unfold hasMeta IsMagic
  rw [← Bool.not_eq_true, List.any_eq_true]
  constructor
  · intro h c hc hm
    exact h ⟨c, hc, by simpa [or_assoc] using hm⟩
  · rintro h ⟨c, hc, hm⟩
    exact h c hc (by simpa [or_assoc] using hm)

theorem cleanStep_subset (rooted : Bool) (st : List (List Char)) (e : List Char) :
    ∀ x ∈ cleanStep rooted st e, x ∈ st ∨ x = e := by
  intro x hx
  by_cases h1 : e = [] ∨ e = ['.']
  · rw [cleanStep_skip rooted st e h1] at hx; exact Or.inl hx
  · have h1a : e ≠ [] := fun h0 => h1 (Or.inl h0)
    have h1b : e ≠ ['.'] := fun h0 => h1 (Or.inr h0)
    by_cases h2 : e = ['.', '.']
    · subst h2
      cases st with
      | nil =>
        rw [cleanStep_dotdot_nil] at hx
        cases rooted with
        | true => simp at hx
        | false => right; simpa using hx
      | cons top rest =>
        rw [cleanStep_dotdot_cons] at hx
        by_cases h3 : top = ['.', '.']
        · rw [if_pos h3] at hx
          rcases List.mem_cons.mp hx with hx' | hx'
          · exact Or.inr hx'
          · exact Or.inl hx'
        · rw [if_neg h3] at hx
          exact Or.inl (List.mem_cons_of_mem _ hx)
    · rw [cleanStep_other rooted st e h1a h1b h2] at hx
      rcases List.mem_cons.mp hx with hx' | hx'
      · exact Or.inr hx'
      · exact Or.inl hx'

theorem foldl_cleanStep_subset (rooted : Bool) (l st : List (List Char)) :
    ∀ x ∈ l.foldl (cleanStep rooted) st, x ∈ st ∨ x ∈ l := by
  induction l generalizing st with
  | nil => intro x hx; exact Or.inl hx
  | cons e es ih =>
    intro x hx
    rcases ih _ x hx with h | h
    · rcases cleanStep_subset rooted st e x h with h' | h'
      · exact Or.inl h'
      · exact Or.inr (by simp [h'])
    · exact Or.inr (List.mem_cons_of_mem _ h)

theorem splitSep_chars (l : List Char) : ∀ e ∈ splitSep l, ∀ c ∈ e, c ∈ l := by
  induction l with
  | nil => simp [splitSep]
  | cons c cs ih =>
    by_cases hc : c = '/'
    · intro e he x hx
      simp only [splitSep, hc, if_true, List.mem_cons] at he
      rcases he with he | he
      · subst he; simp at hx
      · exact List.mem_cons_of_mem _ (ih e he x hx)
    · obtain ⟨y, ys, hy⟩ := List.exists_cons_of_ne_nil (splitSep_ne_nil cs)
      intro e he x hx
      simp only [splitSep, hc, if_false, hy, List.mem_cons] at he
      rw [hy] at ih
      rcases he with he | he
      · subst he
        rcases List.mem_cons.mp hx with h1 | h1
        · rw [h1]; exact List.mem_cons_self _ _
        · exact List.mem_cons_of_mem _ (ih y (List.mem_cons_self _ _) x h1)
      · exact List.mem_cons_of_mem _ (ih e (List.mem_cons_of_mem _ he) x hx)

theorem dirPrefix_chars (dp : List Char) : ∀ c ∈ dirPrefix dp, c = '/' ∨ c ∈ dp := by
  intro c hc
  unfold dirPrefix at hc
  rcases List.mem_append.mp hc with h | h
  · left
    unfold rootChars at h
    split_ifs at h
    · simpa using h
    · simp at h
  · obtain ⟨e, he, hce⟩ := List.mem_flatMap.mp h
    rcases List.mem_append.mp hce with h1 | h1
    · right
      have he' : e ∈ cleanStack dp := List.mem_reverse.mp he
      rcases foldl_cleanStep_subset _ _ _ e he' with h2 | h2
      · simp at h2
      · exact splitSep_chars dp e h2 c h1
    · left; simpa using h1

theorem cleanChars_chars (dp : List Char) :
    ∀ c ∈ cleanChars dp, c = '/' ∨ c = '.' ∨ c ∈ dp := by
  intro c hc
  rw [← cleanGlobChars_dirPrefix] at hc
  unfold cleanGlobChars at hc
  split_ifs at hc
  · right; left; simpa using hc
  · rcases dirPrefix_chars dp c hc with h | h
    · exact Or.inl h
    · exact Or.inr (Or.inr h)
  · rcases dirPrefix_chars dp c (List.mem_of_mem_dropLast hc) with h | h
    · exact Or.inl h
    · exact Or.inr (Or.inr h)

theorem not_isMagic_sep : ¬ IsMagic '/' := by unfold IsMagic; decide

theorem not_isMagic_dot : ¬ IsMagic '.' := by unfold IsMagic; decide

theorem dirPrefix_not_magic (dirPath : String) (h : hasMeta dirPath = false) :
    ∀ c ∈ dirPrefix dirPath.data, ¬ IsMagic c := by
  intro c hc
  rcases dirPrefix_chars _ c hc with h1 | h1
  · rw [h1]; exact not_isMagic_sep
  · exact (hasMeta_eq_false_iff dirPath).mp h c h1

theorem hasMeta_Clean (dirPath : String) (h : hasMeta dirPath = false) :
    hasMeta (Clean dirPath) = false := by
  rw [hasMeta_eq_false_iff]
  intro c hc
  rcases cleanChars_chars _ c hc with h1 | h1 | h1
  · rw [h1]; exact not_isMagic_sep
  · rw [h1]; exact not_isMagic_dot
  · exact (hasMeta_eq_false_iff dirPath).mp h c h1

/-! ## filepath.Match on the patterns of the program -/

theorem matchChunkLoop_failed (fuel : Nat) (chunk s : List Char) :
    matchChunkLoop fuel true chunk s = matchChunkLoop fuel true chunk [] := by
  induction fuel generalizing chunk s with
  | zero => rfl
  | succ fuel ih =>
    cases chunk with
    | nil => simp [matchChunkLoop]
    | cons c chunk1 =>
      simp only [matchChunkLoop, Bool.true_or, if_true]
      split_ifs <;> first | exact ih _ _ | (split <;> first | rfl | exact ih _ _)

theorem matchChunkLoop_literal (fuel : Nat) (failed : Bool) (c : Char)
    (chunk s : List Char) (hc : IsLiteral c) :
    matchChunkLoop (fuel + 1) failed (c :: chunk) s =
      matchChunkLoop fuel (failed || s.isEmpty || decide (s.head? ≠ some c)) chunk
        (if (failed || s.isEmpty) = true then s else s.tail) := by
  obtain ⟨h1, h2, h3⟩ := hc
  simp [matchChunkLoop, h1, h2, h3]

theorem matchChunkLoop_literals_failed (lits rest : List Char) (n : Nat)
    (hl : ∀ c ∈ lits, IsLiteral c) :
    matchChunkLoop (lits.length + n) true (lits ++ rest) [] =
      matchChunkLoop n true rest [] := by
  induction lits with
  | nil => simp
  | cons c cs ih =>
    have h1 : (c :: cs).length + n = (cs.length + n) + 1 := by simp; omega
    rw [h1, List.cons_append, matchChunkLoop_literal _ _ _ _ _ (hl c (List.mem_cons_self _ _))]
    simpa using ih (fun x hx => hl x (List.mem_cons_of_mem _ hx))

theorem matchChunkLoop_literals (lits rest : List Char) (n : Nat) (s : List Char)
    (hl : ∀ c ∈ lits, IsLiteral c) :
    matchChunkLoop (lits.length + n) false (lits ++ rest) s =
      match stripLits lits s with
      | some t => matchChunkLoop n false rest t
      | none => matchChunkLoop n true rest [] := by
  induction lits generalizing s with
  | nil => simp [stripLits]
  | cons c cs ih =>
    have hcs : ∀ x ∈ cs, IsLiteral x := fun x hx => hl x (List.mem_cons_of_mem _ hx)
    have h1 : (c :: cs).length + n = (cs.length + n) + 1 := by simp; omega
    rw [h1, List.cons_append, matchChunkLoop_literal _ _ _ _ _ (hl c (List.mem_cons_self _ _))]
    cases s with
    | nil =>
      simp only [List.isEmpty_nil, Bool.false_or, Bool.true_or, if_true]
      rw [matchChunkLoop_literals_failed _ _ _ hcs]
      simp [stripLits]
    | cons x xs =>
      by_cases hx : x = c
      · subst hx
        have := ih xs hcs
        simpa [stripLits] using this
      · have h2 : (false || (x :: xs).isEmpty || decide ((x :: xs).head? ≠ some c)) = true := by
          simp [hx]
        have hx' : ¬ c = x := fun h => hx h.symm
        rw [h2, matchChunkLoop_failed, matchChunkLoop_literals_failed _ _ _ hcs]
        simp [stripLits, hx']

theorem stripLits_eq_some (lits s t : List Char) :
    stripLits lits s = some t ↔ s = lits ++ t := by
  unfold stripLits
  constructor
  · intro h
    split_ifs at h with hp
    have hp' := List.isPrefixOf_iff_prefix.mp hp
    obtain ⟨u, hu⟩ := hp'
    have : t = u := by
      have h' : List.drop lits.length s = t := by simpa using h
      rw [← h', ← hu]; simp
    rw [this, hu]
  · intro h
    subst h
    have hp : lits.isPrefixOf (lits ++ t) = true :=
      List.isPrefixOf_iff_prefix.mpr (List.prefix_append _ _)
    rw [if_pos hp]
    simp

theorem matchChunkLoop_digitClass (fuel : Nat) (rest s : List Char) :
    matchChunkLoop (fuel + 1) false ('[' :: '0' :: '-' :: '9' :: ']' :: rest) s =
      match s with
      | [] => matchChunkLoop fuel true rest []
      | d :: t =>
        if isDigitRune d then matchChunkLoop fuel false rest t
        else matchChunkLoop fuel true rest [] := by
  cases s with
  | nil =>
    simp [matchChunkLoop, classLoop, getEsc]
  | cons d t =>
    by_cases hd : isDigitRune d = true
    · have hd' : '0' ≤ d ∧ d ≤ '9' := by simpa [isDigitRune] using hd
      simp [matchChunkLoop, classLoop, getEsc, hd, hd'.1, hd'.2]
    · have hf : (!decide ('0' ≤ d) || !decide (d ≤ '9')) = true := by
        have : ¬ ((decide ('0' ≤ d) && decide (d ≤ '9')) = true) := hd
        revert this
        cases decide ('0' ≤ d) <;> cases decide (d ≤ '9') <;> simp
      simp only [matchChunkLoop, classLoop, getEsc]
      simp [hd, hf, matchChunkLoop_failed fuel rest t]

theorem matchChunkLoop_digitClass_failed (fuel : Nat) (rest : List Char) :
    matchChunkLoop (fuel + 1) true ('[' :: '0' :: '-' :: '9' :: ']' :: rest) [] =
      matchChunkLoop fuel true rest [] := by
  simp [matchChunkLoop, classLoop, getEsc]

theorem dropStars_of_not_star (c : Char) (cs : List Char) (hc : c ≠ '*') :
    dropStars (c :: cs) = (false, c :: cs) := by
  unfold dropStars
  split
  · simp_all
  · rfl

theorem chunkSplit_of_plain (b : Bool) (l : List Char)
    (hl : ∀ c ∈ l, c ≠ '*' ∧ c ≠ '\\') : chunkSplit b l = (l, []) := by
  induction l generalizing b with
  | nil => simp [chunkSplit]
  | cons c cs ih =>
    obtain ⟨h1, h2⟩ := hl c (List.mem_cons_self _ _)
    have hcs : ∀ x ∈ cs, x ≠ '*' ∧ x ≠ '\\' := fun x hx => hl x (List.mem_cons_of_mem _ hx)
    unfold chunkSplit
    split
    · simp_all
    · simp_all
    · simp_all
    · rename_i heq
      injection heq with hc1 hc2
      subst hc1 hc2
      simp [ih _ hcs, h1]

theorem matchLoop_single_chunk (fuel : Nat) (chunk name : List Char) (hne : chunk ≠ [])
    (hsc : scanChunk chunk = (false, chunk, [])) :
    matchLoop (fuel + 2) chunk name =
      match matchChunk chunk name with
      | .ok (some t) => .ok (decide (t = []))
      | .ok none => .ok false
      | .error e => .error e := by
  obtain ⟨c, cs, hc⟩ := List.exists_cons_of_ne_nil hne
  subst hc
  simp only [matchLoop, hsc]
  cases h : matchChunk (c :: cs) name with
  | error e => simp
  | ok r =>
    cases r with
    | none => simp
    | some t =>
      by_cases ht : t = []
      · subst ht
        simp [matchLoop]
      · simp [ht]

theorem matchChunk_shape (tail s : List Char) (htail : ∀ c ∈ tail, IsLiteral c) :
    matchChunk ("syslog.".data ++ '[' :: '0' :: '-' :: '9' :: ']' :: tail) s =
      .ok (shapeMatch tail s) := by
  have hlit : ∀ c ∈ "syslog.".data, IsLiteral c := by unfold IsLiteral; decide
  have hfuel : ("syslog.".data ++ '[' :: '0' :: '-' :: '9' :: ']' :: tail).length.succ =
      "syslog.".data.length + ((tail.length + 5) + 1) := by
    simp; omega
  have hend : ∀ (f : Bool) (u : List Char),
      matchChunkLoop 5 f [] u = .ok (if f then none else some u) := by
    intro f u; simp [matchChunkLoop]
  have hfail : matchChunkLoop (tail.length + 5) true tail [] = .ok none := by
    have := matchChunkLoop_literals_failed tail [] 5 htail
    rw [List.append_nil] at this
    rw [this, hend]; rfl
  unfold matchChunk shapeMatch
  rw [hfuel, matchChunkLoop_literals _ _ _ _ hlit]
  cases h1 : stripLits "syslog.".data s with
  | none =>
    simp only
    rw [matchChunkLoop_digitClass_failed, hfail]
  | some t =>
    simp only
    rw [matchChunkLoop_digitClass]
    cases t with
    | nil => simp only; rw [hfail]
    | cons d t' =>
      simp only
      by_cases hd : isDigitRune d = true
      · rw [if_pos hd, if_pos hd]
        have := matchChunkLoop_literals tail [] 5 t' htail
        rw [List.append_nil] at this
        rw [this]
        cases stripLits tail t' with
        | none => simp only; rw [hend]; rfl
        | some u => simp only; rw [hend]; rfl
      · rw [if_neg hd, if_neg hd, hfail]

theorem scanChunk_of_plain (c : Char) (cs : List Char)
    (hl : ∀ x ∈ c :: cs, x ≠ '*' ∧ x ≠ '\\') :
    scanChunk (c :: cs) = (false, c :: cs, []) := by
  unfold scanChunk
  rw [dropStars_of_not_star c cs (hl c (List.mem_cons_self _ _)).1]
  simp only
  rw [chunkSplit_of_plain false _ hl]

theorem Match_shape (pat n : String) (tail : List Char)
    (hpat : pat.data = "syslog.".data ++ '[' :: '0' :: '-' :: '9' :: ']' :: tail)
    (htail : ∀ c ∈ tail, IsLiteral c ∧ c ≠ '*') :
    Match pat n = .ok (decide (shapeMatch tail n.data = some [])) := by
  have hplain : ∀ x ∈ pat.data, x ≠ '*' ∧ x ≠ '\\' := by
    rw [hpat]
    intro x hx
    have hk1 : ∀ y ∈ "syslog.".data, y ≠ '*' ∧ y ≠ '\\' := by decide
    have hk2 : ∀ y ∈ ['[', '0', '-', '9', ']'], y ≠ '*' ∧ y ≠ '\\' := by decide
    rcases List.mem_append.mp hx with h | h
    · exact hk1 x h
    · have h' : x ∈ ['[', '0', '-', '9', ']'] ∨ x ∈ tail := by
        simpa [or_assoc] using h
      rcases h' with h' | h'
      · exact hk2 x h'
      · exact ⟨(htail x h').2, (htail x h').1.2.2⟩
  have hlen : pat.length.succ = (tail.length + 11) + 2 := by
    show pat.data.length.succ = _
    rw [hpat]; simp
  unfold Match
  rw [hlen]
  show matchLoop _ pat.data n.data = _
  have hc : pat.data = 's' :: (pat.data.tail) := by rw [hpat]; rfl
  rw [matchLoop_single_chunk _ _ _ (by rw [hc]; simp)
    (by rw [hc] at hplain ⊢; exact scanChunk_of_plain _ _ hplain)]
  rw [hpat, matchChunk_shape tail _ (fun c hc => (htail c hc).1)]
  cases shapeMatch tail n.data with
  | none => simp
  | some t => simp

theorem Match_uncompressed (n : String) :
    Match uncompressedLogFilePattern n = .ok (isRotation n) :=
  Match_shape _ n [] rfl (by simp)

theorem Match_compressed (n : String) :
    Match compressedLogFilePattern n = .ok (isCompressed n) :=
  Match_shape _ n ".gz".data rfl (by unfold IsLiteral; decide)

theorem shapeMatch_eq_some_nil (tail s : List Char) :
    shapeMatch tail s = some [] ↔
      ∃ d, isDigitRune d = true ∧ s = "syslog.".data ++ d :: tail := by
  unfold shapeMatch
  constructor
  · intro h
    cases h1 : stripLits "syslog.".data s with
    | none => simp [h1] at h
    | some t =>
      rw [h1] at h
      cases t with
      | nil => simp at h
      | cons d t' =>
        simp only at h
        by_cases hd : isDigitRune d = true
        · rw [if_pos hd] at h
          refine ⟨d, hd, ?_⟩
          rw [(stripLits_eq_some _ _ _).mp h1, (stripLits_eq_some _ _ _).mp h]
          simp
        · rw [if_neg hd] at h
          cases h
  · rintro ⟨d, hd, hs⟩
    have h1 : stripLits "syslog.".data s = some (d :: tail) :=
      (stripLits_eq_some _ _ _).mpr hs
    have h2 : stripLits tail tail = some [] := (stripLits_eq_some _ _ _).mpr (by simp)
    rw [h1]
    simp only
    rw [if_pos hd, h2]

theorem isRotation_iff (n : String) :
    isRotation n = true ↔ ∃ d, isDigitRune d = true ∧ n = rotationName d := by
  unfold isRotation rotationName
  rw [decide_eq_true_iff, shapeMatch_eq_some_nil]
  constructor
  · rintro ⟨d, hd, h⟩
    exact ⟨d, hd, String.ext h⟩
  · rintro ⟨d, hd, h⟩
    exact ⟨d, hd, by rw [h]⟩

theorem isCompressed_iff (n : String) :
    isCompressed n = true ↔ ∃ d, isDigitRune d = true ∧ n = compressedName d := by
  unfold isCompressed compressedName
  rw [decide_eq_true_iff, shapeMatch_eq_some_nil]
  constructor
  · rintro ⟨d, hd, h⟩
    exact ⟨d, hd, String.ext h⟩
  · rintro ⟨d, hd, h⟩
    exact ⟨d, hd, by rw [h]⟩

/-! ## filepath.Glob on a directory path without magic runes -/

theorem isLiteral_of_not_magic (c : Char) (h : ¬ IsMagic c) : IsLiteral c ∧ c ≠ '*' := by
  unfold IsMagic at h
  unfold IsLiteral
  refine ⟨⟨?_, ?_, ?_⟩, ?_⟩ <;> intro hc <;> apply h <;> simp [hc]

/-- A pattern made of a directory prefix without magic runes and a final element that
fails on the empty name without error is well formed. -/
theorem Match_joined_empty (P pat : List Char) (hP : ∀ c ∈ P, ¬ IsMagic c)
    (hpat : pat ≠ []) (hplain : ∀ c ∈ pat, c ≠ '*' ∧ c ≠ '\\')
    (h1 : matchChunkLoop (pat.length + 1) false pat [] = .ok none)
    (h2 : matchChunkLoop (pat.length + 1) true pat [] = .ok none) :
    Match (String.mk (P ++ pat)) "" = .ok false := by
  have hne : P ++ pat ≠ [] := by simp [hpat]
  obtain ⟨c, cs, hc⟩ := List.exists_cons_of_ne_nil hne
  have hall : ∀ x ∈ P ++ pat, x ≠ '*' ∧ x ≠ '\\' := by
    intro x hx
    rcases List.mem_append.mp hx with h | h
    · exact ⟨(isLiteral_of_not_magic x (hP x h)).2, (isLiteral_of_not_magic x (hP x h)).1.2.2⟩
    · exact hplain x h
  have hlenpos : 1 ≤ pat.length := List.length_pos.mpr hpat
  have hlen : (String.mk (P ++ pat)).length.succ = (P.length + pat.length - 1) + 2 := by
    show (P ++ pat).length.succ = _
    simp; omega
  unfold Match
  rw [hlen]
  show matchLoop _ (P ++ pat) [] = _
  rw [matchLoop_single_chunk _ _ _ hne (by rw [hc] at hall ⊢; exact scanChunk_of_plain _ _ hall)]
  have hm : matchChunk (P ++ pat) [] = .ok none := by
    unfold matchChunk
    have hf : (P ++ pat).length.succ = P.length + (pat.length + 1) := by simp; omega
    rw [hf, matchChunkLoop_literals _ _ _ _ (fun x hx => (isLiteral_of_not_magic x (hP x hx)).1)]
    cases hs : stripLits P [] with
    | none => exact h2
    | some t =>
      have := (stripLits_eq_some _ _ _).mp hs
      have ht : t = [] := by
        have h3 := congrArg List.length this
        simp at h3
        exact List.length_eq_zero.mp (by omega)
      subst ht
      exact h1
  rw [hm]

theorem hasMeta_mk_append (P pat : List Char) (hP : ∀ c ∈ P, ¬ IsMagic c) :
    hasMeta (String.mk (P ++ pat)) = hasMeta (String.mk pat) := by
  have hPf : hasMeta (String.mk P) = false := (hasMeta_eq_false_iff _).mpr hP
  unfold hasMeta at *
  show (P ++ pat).any _ = pat.any _
  rw [List.any_append]
  have hPf' : P.any (fun c => decide (c = '*') || decide (c = '?') || decide (c = '[') ||
      decide (c = '\\')) = false := hPf
  rw [hPf']
  rfl

theorem foldlM_glob_step (dir : String) (f : String → Bool) (pat : String)
    (hf : ∀ n, Match pat n = .ok (f n)) (l : List String) (found : List String) :
    l.foldlM
      (fun m n =>
        match Match pat n with
        | .error e => (Except.error e : Except String (List String))
        | .ok matched => .ok (if matched then m ++ [Join dir n] else m))
      found = .ok (found ++ (l.filter f).map (Join dir)) := by
  induction l generalizing found with
  | nil => simp [List.foldlM]; rfl
  | cons n ns ih =>
    rw [List.foldlM_cons, hf n]
    show (List.foldlM _ (if f n = true then found ++ [Join dir n] else found) ns) = _
    rw [ih]
    by_cases hn : f n = true
    · simp [hn]
    · simp [hn]

theorem glob_eq (fs : FileSystem) (dir pat : String) (found : List String)
    (f : String → Bool) (hf : ∀ n, Match pat n = .ok (f n)) :
    glob fs dir pat found =
      .ok (found ++ ((SortFunc Compare (fs.readDir dir)).filter f).map (Join dir)) := by
  unfold glob
  exact foldlM_glob_step dir f pat hf _ found

theorem Match_joinedPath_empty (dirPath pat : String) (hmeta : hasMeta dirPath = false)
    (hpat : pat.data ≠ []) (hplain : ∀ c ∈ pat.data, c ≠ '*' ∧ c ≠ '\\')
    (h1 : matchChunkLoop (pat.data.length + 1) false pat.data [] = .ok none)
    (h2 : matchChunkLoop (pat.data.length + 1) true pat.data [] = .ok none) :
    Match (joinedPath dirPath pat) "" = .ok false :=
  Match_joined_empty _ _ (dirPrefix_not_magic dirPath hmeta) hpat hplain h1 h2

theorem hasMeta_joinedPath (dirPath pat : String) (hmeta : hasMeta dirPath = false) :
    hasMeta (joinedPath dirPath pat) = hasMeta pat :=
  hasMeta_mk_append _ _ (dirPrefix_not_magic dirPath hmeta)

/-- The function `Glob` on a pattern whose directory part has no magic rune and whose last element is
a pattern with a magic rune: the matching names of the cleaned directory, sorted, as
paths. -/
theorem Glob_pattern (fs : FileSystem) (dirPath pat : String) (f : String → Bool)
    (hmeta : hasMeta dirPath = false) (hname : PlainName pat) (hmagic : hasMeta pat = true)
    (hplain : ∀ c ∈ pat.data, c ≠ '*' ∧ c ≠ '\\')
    (h1 : matchChunkLoop (pat.data.length + 1) false pat.data [] = .ok none)
    (h2 : matchChunkLoop (pat.data.length + 1) true pat.data [] = .ok none)
    (hf : ∀ n, Match pat n = .ok (f n)) :
    Glob fs (Join dirPath pat) =
      .ok (((SortFunc Compare (fs.readDir (Clean dirPath))).filter f).map
        (Join (Clean dirPath))) := by
  rw [Join_plain dirPath pat hname]
  unfold Glob
  have hlim : pathSeparatorsLimit = 9999 + 1 := rfl
  rw [hlim, globWithLimit, Match_joinedPath_empty dirPath pat hmeta hname.1 hplain h1 h2]
  simp only
  rw [hasMeta_joinedPath dirPath pat hmeta, hmagic, Split_joinedPath dirPath pat hname.2.1]
  simp only [Bool.true_eq_false, if_false]
  rw [cleanGlobPath_dirPrefix, hasMeta_Clean dirPath hmeta]
  simp only [if_true]
  rw [glob_eq fs _ pat [] f hf]
  simp

/-- The function `Glob` on a path without magic runes: the path itself when it exists. -/
theorem Glob_plain (fs : FileSystem) (dirPath name : String)
    (hmeta : hasMeta dirPath = false) (hname : PlainName name)
    (hmagic : hasMeta name = false)
    (hplain : ∀ c ∈ name.data, c ≠ '*' ∧ c ≠ '\\')
    (h1 : matchChunkLoop (name.data.length + 1) false name.data [] = .ok none)
    (h2 : matchChunkLoop (name.data.length + 1) true name.data [] = .ok none) :
    Glob fs (Join dirPath name) =
      .ok (if fs.lstat (Join dirPath name) then [Join dirPath name] else []) := by
  rw [Join_plain dirPath name hname]
  unfold Glob
  have hlim : pathSeparatorsLimit = 9999 + 1 := rfl
  rw [hlim, globWithLimit, Match_joinedPath_empty dirPath name hmeta hname.1 hplain h1 h2]
  simp only
  rw [hasMeta_joinedPath dirPath name hmeta, hmagic]
  simp

theorem plainName_compressed : PlainName compressedLogFilePattern := by
  unfold PlainName PlainElem; decide

theorem plainName_uncompressed : PlainName uncompressedLogFilePattern := by
  unfold PlainName PlainElem; decide

theorem plainName_current : PlainName currentLogFilePattern := by
  unfold PlainName PlainElem; decide

theorem Glob_compressed (fs : FileSystem) (dirPath : String)
    (hmeta : hasMeta dirPath = false) :
    Glob fs (Join dirPath compressedLogFilePattern) =
      .ok (((SortFunc Compare (fs.readDir (Clean dirPath))).filter isCompressed).map
        (Join (Clean dirPath))) :=
  Glob_pattern fs dirPath _ isCompressed hmeta plainName_compressed (by decide) (by decide)
    rfl rfl Match_compressed

theorem Glob_uncompressed (fs : FileSystem) (dirPath : String)
    (hmeta : hasMeta dirPath = false) :
    Glob fs (Join dirPath uncompressedLogFilePattern) =
      .ok (((SortFunc Compare (fs.readDir (Clean dirPath))).filter isRotation).map
        (Join (Clean dirPath))) :=
  Glob_pattern fs dirPath _ isRotation hmeta plainName_uncompressed (by decide) (by decide)
    rfl rfl Match_uncompressed

theorem Glob_current (fs : FileSystem) (dirPath : String)
    (hmeta : hasMeta dirPath = false) :
    Glob fs (Join dirPath currentLogFilePattern) =
      .ok (if fs.lstat (Join (Clean dirPath) currentLogFilePattern)
        then [Join (Clean dirPath) currentLogFilePattern] else []) := by
  rw [Glob_plain fs dirPath _ hmeta plainName_current (by decide) (by decide) rfl rfl,
    Join_plain dirPath _ plainName_current, Join_Clean_plain dirPath _ plainName_current]

/-! ## ScrapeFiles -/

/-- The method `ScrapeFiles` once the three listings have succeeded. -/
theorem ScrapeFiles_of_listings (tbl : Char → Char) (fs : FileSystem) (s : Scraper)
    (c u k : List String)
    (hc : Glob fs (Join s.dirPath compressedLogFilePattern) = .ok c)
    (hu : Glob fs (Join s.dirPath uncompressedLogFilePattern) = .ok u)
    (hk : Glob fs (Join s.dirPath currentLogFilePattern) = .ok k) :
    s.ScrapeFiles tbl fs =
      if (s.logFilenames ++ c ++ u ++ k).length = 0 then
        ({ s with logFilenames := s.logFilenames ++ c ++ u ++ k },
          some ("no log files found in " ++ s.dirPath))
      else
        ({ s with logFilenames := SortFunc (cmpLogFiles tbl) (s.logFilenames ++ c ++ u ++ k) },
          none) := by
  unfold Scraper.ScrapeFiles
  simp only [hc, hu, hk]

/-- When `ScrapeFiles` returns nil the three listings succeeded, found something, and
the file list is the sorted concatenation. -/
theorem ScrapeFiles_nil (tbl : Char → Char) (fs : FileSystem) (s s' : Scraper)
    (h : s.ScrapeFiles tbl fs = (s', none)) :
    ∃ c u k, Glob fs (Join s.dirPath compressedLogFilePattern) = .ok c ∧
      Glob fs (Join s.dirPath uncompressedLogFilePattern) = .ok u ∧
      Glob fs (Join s.dirPath currentLogFilePattern) = .ok k ∧
      s.logFilenames ++ c ++ u ++ k ≠ [] ∧
      s'.logFilenames = SortFunc (cmpLogFiles tbl) (s.logFilenames ++ c ++ u ++ k) := by
  cases hc : Glob fs (Join s.dirPath compressedLogFilePattern) with
  | error e => simp [Scraper.ScrapeFiles, hc] at h
  | ok c =>
    cases hu : Glob fs (Join s.dirPath uncompressedLogFilePattern) with
    | error e => simp [Scraper.ScrapeFiles, hc, hu] at h
    | ok u =>
      cases hk : Glob fs (Join s.dirPath currentLogFilePattern) with
      | error e => simp [Scraper.ScrapeFiles, hc, hu, hk] at h
      | ok k =>
        rw [ScrapeFiles_of_listings tbl fs s c u k hc hu hk] at h
        refine ⟨c, u, k, rfl, rfl, rfl, ?_⟩
        split_ifs at h with h0
        · simp at h
        · have h1 := congrArg Prod.fst h
          simp only at h1
          refine ⟨fun hnil => h0 (by rw [hnil]; rfl), ?_⟩
          rw [← h1]

theorem ScrapeFiles_of_plain_dir (tbl : Char → Char) (fs : FileSystem) (dirPath : String)
    (hmeta : hasMeta dirPath = false) :
    (NewScraper dirPath).ScrapeFiles tbl fs =
      if (discovered fs dirPath).length = 0 then
        ({ dirPath := dirPath, logFilenames := discovered fs dirPath },
          some ("no log files found in " ++ dirPath))
      else
        ({ dirPath := dirPath,
           logFilenames := SortFunc (cmpLogFiles tbl) (discovered fs dirPath) }, none) := by
  rw [ScrapeFiles_of_listings tbl fs (NewScraper dirPath) _ _ _
    (Glob_compressed fs dirPath hmeta) (Glob_uncompressed fs dirPath hmeta)
    (Glob_current fs dirPath hmeta)]
  simp only [NewScraper, List.nil_append, discovered]

/-! ## C5 -/

theorem filter_sorted_eq_nil (names : List String) (f : String → Bool) :
    (SortFunc Compare names).filter f = [] ↔ ∀ n ∈ names, f n = false := by
  rw [List.filter_eq_nil_iff]
  constructor
  · intro h n hn
    have := h n ((SortFunc_perm Compare names).symm.subset hn)
    simpa using this
  · intro h n hn
    have := h n ((SortFunc_perm Compare names).subset hn)
    simp [this]

/-- C5, as stated, fails: the directory path "[" names no directory with files (every
listing of the sample file system is empty), yet `ScrapeFiles` returns the error of the
first listing, the pattern being malformed, not "no log files found". -/
theorem C5_counterexample :
    sampleFS.readDir (Clean "[") = [] ∧
    sampleFS.lstat (Join (Clean "[") currentLogFilePattern) = false ∧
    ((NewScraper "[").ScrapeFiles id sampleFS).2 =
      some "error listing compressed log files: syntax error in pattern" ∧
    ((NewScraper "[").ScrapeFiles id sampleFS).2 ≠ some "no log files found in [" := by
  decide

/-- C5 (amended): whenever none of the three listings errors, `ScrapeFiles` on a new
scraper returns the "no log files found" error if the listings are all empty and nil if
at least one file is listed. A directory path without magic runes never makes a listing
error: there the error is returned when the directory has no name of the three shapes
(a directory that does not exist has none) and nil when it has one. -/
theorem C5_no_files_error_or_nil (tbl : Char → Char) (fs : FileSystem) (dirPath : String) :
    (∀ c u k : List String,
        Glob fs (Join dirPath compressedLogFilePattern) = .ok c →
        Glob fs (Join dirPath uncompressedLogFilePattern) = .ok u →
        Glob fs (Join dirPath currentLogFilePattern) = .ok k →
        (c ++ u ++ k = [] →
          ((NewScraper dirPath).ScrapeFiles tbl fs).2 =
            some ("no log files found in " ++ dirPath)) ∧
        (c ++ u ++ k ≠ [] → ((NewScraper dirPath).ScrapeFiles tbl fs).2 = none)) ∧
    (hasMeta dirPath = false →
        ((∀ n ∈ fs.readDir (Clean dirPath), isCompressed n = false ∧ isRotation n = false) →
          fs.lstat (Join (Clean dirPath) currentLogFilePattern) = false →
          ((NewScraper dirPath).ScrapeFiles tbl fs).2 =
            some ("no log files found in " ++ dirPath)) ∧
        (((∃ n ∈ fs.readDir (Clean dirPath), isCompressed n = true ∨ isRotation n = true) ∨
            fs.lstat (Join (Clean dirPath) currentLogFilePattern) = true) →
          ((NewScraper dirPath).ScrapeFiles tbl fs).2 = none)) := by
  constructor
  · intro c u k hc hu hk
    rw [ScrapeFiles_of_listings tbl fs (NewScraper dirPath) c u k hc hu hk]
    simp only [NewScraper, List.nil_append]
    constructor
    · intro h
      rw [h]; rfl
    · intro h
      rw [if_neg (by simpa using h)]
  · intro hmeta
    rw [ScrapeFiles_of_plain_dir tbl fs dirPath hmeta]
    constructor
    · intro hnames hstat
      have h1 := (filter_sorted_eq_nil (fs.readDir (Clean dirPath)) isCompressed).mpr
        (fun n hn => (hnames n hn).1)
      have h2 := (filter_sorted_eq_nil (fs.readDir (Clean dirPath)) isRotation).mpr
        (fun n hn => (hnames n hn).2)
      have h0 : discovered fs dirPath = [] := by
        unfold discovered
        rw [h1, h2, hstat]
        rfl
      rw [h0]; rfl
    · intro h
      have h0 : (discovered fs dirPath).length ≠ 0 := by
        intro hlen
        have hnil : discovered fs dirPath = [] := List.length_eq_zero.mp hlen
        unfold discovered at hnil
        simp only [List.append_eq_nil, List.map_eq_nil_iff] at hnil
        obtain ⟨⟨hc, hu⟩, hk⟩ := hnil
        rcases h with ⟨n, hn, hcu⟩ | hstat
        · have hc' := (filter_sorted_eq_nil _ _).mp hc n hn
          have hu' := (filter_sorted_eq_nil _ _).mp hu n hn
          rcases hcu with h1 | h1
          · rw [hc'] at h1; cases h1
          · rw [hu'] at h1; cases h1
        · rw [hstat] at hk
          simp at hk
      rw [if_neg h0]

/-- Instance of C5 (amended): the directory "var/log" does not exist in the sample file
system; the directory path "x*[" is a pattern that makes no listing error and matches
nothing there; and the directory "var/log" of the log file system has log files. -/
theorem C5_no_files_error_or_nil_witness :
    ((NewScraper "var/log").ScrapeFiles id sampleFS).2 =
        some ("no log files found in " ++ "var/log") ∧
      ((NewScraper "x*[").ScrapeFiles id sampleFS).2 =
        some ("no log files found in " ++ "x*[") ∧
      ((NewScraper "var/log").ScrapeFiles id logFS).2 = none :=
  ⟨((C5_no_files_error_or_nil id sampleFS "var/log").2 (by decide)).1 (by decide) (by decide),
    ((C5_no_files_error_or_nil id sampleFS "x*[").1 [] [] [] rfl rfl rfl).1 rfl,
    ((C5_no_files_error_or_nil id logFS "var/log").2 (by decide)).2 (Or.inr (by decide))⟩

/-! ## C4 -/

theorem digit_ne_sep (d : Char) (hd : isDigitRune d = true) : d ≠ '/' := by
  intro h
  subst h
  revert hd
  decide

theorem plainName_rotationName (d : Char) (hd : isDigitRune d = true) :
    PlainName (rotationName d) := by
  unfold PlainName PlainElem rotationName
  refine ⟨by simp, ?_, by simp, by simp⟩
  have := digit_ne_sep d hd
  have h1 : '/' ∉ "syslog.".data := by decide
  simp only [List.mem_append, List.mem_singleton, not_or]
  exact ⟨h1, fun h => this h.symm⟩

theorem plainName_compressedName (d : Char) (hd : isDigitRune d = true) :
    PlainName (compressedName d) := by
  unfold PlainName PlainElem compressedName
  refine ⟨by simp, ?_, by simp, by simp⟩
  have := digit_ne_sep d hd
  have h1 : '/' ∉ "syslog.".data := by decide
  have h2 : '/' ∉ ".gz".data := by decide
  intro hmem
  rcases List.mem_append.mp hmem with h | h
  · exact h1 h
  · rcases List.mem_cons.mp h with h | h
    · exact this h.symm
    · exact h2 h

theorem plainName_of_shape (n : String)
    (h : isCompressed n = true ∨ isRotation n = true ∨ isCurrent n = true) : PlainName n := by
  rcases h with h | h | h
  · obtain ⟨d, hd, rfl⟩ := (isCompressed_iff n).mp h
    exact plainName_compressedName d hd
  · obtain ⟨d, hd, rfl⟩ := (isRotation_iff n).mp h
    exact plainName_rotationName d hd
  · have : n = "syslog" := by simpa [isCurrent] using h
    subst this
    exact plainName_current

theorem shapes_exclusive (n : String) :
    (isCompressed n = true → isRotation n = false ∧ isCurrent n = false) ∧
      (isRotation n = true → isCurrent n = false) := by
  constructor
  · intro h
    obtain ⟨d, _, rfl⟩ := (isCompressed_iff n).mp h
    constructor
    · rw [← Bool.not_eq_true, isRotation_iff]
      rintro ⟨d', _, h'⟩
      have := congrArg (fun s => s.data.length) h'
      simp [compressedName, rotationName] at this
    · rw [← Bool.not_eq_true]
      intro h'
      have h'' : compressedName d = "syslog" := by simpa [isCurrent] using h'
      have := congrArg (fun s => s.data.length) h''
      simp [compressedName] at this
  · intro h
    obtain ⟨d, _, rfl⟩ := (isRotation_iff n).mp h
    rw [← Bool.not_eq_true]
    intro h'
    have h'' : rotationName d = "syslog" := by simpa [isCurrent] using h'
    have := congrArg (fun s => s.data.length) h''
    simp [rotationName] at this

theorem filter_three_perm {α : Type} (p q r : α → Bool) (l : List α)
    (h : ∀ x ∈ l, (p x = true ∧ q x = false ∧ r x = false) ∨
      (p x = false ∧ q x = true ∧ r x = false) ∨ (p x = false ∧ q x = false ∧ r x = true)) :
    (l.filter p ++ l.filter q ++ l.filter r).Perm l := by
  induction l with
  | nil => simp
  | cons x xs ih =>
    have ih' := ih (fun y hy => h y (List.mem_cons_of_mem _ hy))
    rcases h x (List.mem_cons_self _ _) with ⟨hp, hq, hr⟩ | ⟨hp, hq, hr⟩ | ⟨hp, hq, hr⟩
    · simp only [List.filter_cons, hp, hq, hr, if_true, Bool.false_eq_true, if_false,
        List.cons_append]
      exact List.Perm.cons x ih'
    · simp only [List.filter_cons, hp, hq, hr, if_true, Bool.false_eq_true, if_false]
      have h1 : (xs.filter p ++ x :: xs.filter q ++ xs.filter r).Perm
          (x :: (xs.filter p ++ xs.filter q ++ xs.filter r)) := by
        rw [List.append_assoc, List.append_assoc]
        exact List.perm_middle
      exact h1.trans (List.Perm.cons x ih')
    · simp only [List.filter_cons, hp, hq, hr, if_true, Bool.false_eq_true, if_false]
      exact List.perm_middle.trans (List.Perm.cons x ih')

theorem filter_isCurrent_of_nodup (l : List String) (hl : l.Nodup) :
    l.filter isCurrent = if "syslog" ∈ l then ["syslog"] else [] := by
  induction l with
  | nil => rfl
  | cons x xs ih =>
    rw [List.nodup_cons] at hl
    have ih' := ih hl.2
    by_cases hx : x = "syslog"
    · subst hx
      have hnot : "syslog" ∉ xs := hl.1
      rw [if_neg hnot] at ih'
      simp [List.filter_cons, isCurrent, ih']
    · have hx' : isCurrent x = false := by simpa [isCurrent] using hx
      have hx'' : ¬ "syslog" = x := fun h => hx h.symm
      simp only [List.filter_cons, hx', Bool.false_eq_true, if_false, ih', List.mem_cons, hx'',
        false_or]

theorem joinedPath_injective (dirPath a b : String)
    (h : joinedPath dirPath a = joinedPath dirPath b) : a = b := by
  unfold joinedPath at h
  have h1 := congrArg String.data h
  exact String.ext (List.append_cancel_left h1)

theorem discovered_perm (fs : FileSystem) (dirPath : String)
    (hnodup : (fs.readDir (Clean dirPath)).Nodup)
    (hstat : fs.lstat (Join (Clean dirPath) currentLogFilePattern) = true ↔
      currentLogFilePattern ∈ fs.readDir (Clean dirPath))
    (hshape : ∀ n ∈ fs.readDir (Clean dirPath),
      isCompressed n = true ∨ isRotation n = true ∨ isCurrent n = true) :
    (discovered fs dirPath).Perm ((fs.readDir (Clean dirPath)).map (Join (Clean dirPath))) := by
  have hperm := SortFunc_perm Compare (fs.readDir (Clean dirPath))
  have hsn : (SortFunc Compare (fs.readDir (Clean dirPath))).Nodup :=
    hperm.symm.nodup hnodup
  have hcur : (if fs.lstat (Join (Clean dirPath) currentLogFilePattern)
      then [Join (Clean dirPath) currentLogFilePattern] else []) =
      ((SortFunc Compare (fs.readDir (Clean dirPath))).filter isCurrent).map
        (Join (Clean dirPath)) := by
    rw [filter_isCurrent_of_nodup _ hsn]
    by_cases h : fs.lstat (Join (Clean dirPath) currentLogFilePattern) = true
    · have hm : "syslog" ∈ SortFunc Compare (fs.readDir (Clean dirPath)) :=
        hperm.symm.subset (hstat.mp h)
      rw [if_pos h, if_pos hm]
      rfl
    · have hm : "syslog" ∉ SortFunc Compare (fs.readDir (Clean dirPath)) :=
        fun hm => h (hstat.mpr (hperm.subset hm))
      rw [if_neg h, if_neg hm]
      rfl
  unfold discovered
  rw [hcur, ← List.map_append, ← List.map_append]
  refine (List.Perm.map _ ?_).trans (List.Perm.map _ hperm)
  apply filter_three_perm
  intro n hn
  have hn' := hshape n (hperm.subset hn)
  have hex := shapes_exclusive n
  by_cases hc : isCompressed n = true
  · exact Or.inl ⟨hc, (hex.1 hc).1, (hex.1 hc).2⟩
  · have hc' : isCompressed n = false := by simpa using hc
    by_cases hr : isRotation n = true
    · exact Or.inr (Or.inl ⟨hc', hr, hex.2 hr⟩)
    · have hr' : isRotation n = false := by simpa using hr
      rcases hn' with h | h | h
      · exact absurd h hc
      · exact absurd h hr
      · exact Or.inr (Or.inr ⟨hc', hr', h⟩)

/-- C4, as stated, fails: every name of the directory "lo?" has one of the three shapes
and `ScrapeFiles` returns nil, but the path is a pattern that the directory "log"
matches too, so logFilenames holds "log/syslog.1", which is no file of the directory. -/
theorem C4_counterexample :
    (∀ n ∈ magicFS.readDir (Clean "lo?"),
      isCompressed n = true ∨ isRotation n = true ∨ isCurrent n = true) ∧
    (magicFS.readDir (Clean "lo?")).Nodup ∧
    (magicFS.lstat (Join (Clean "lo?") currentLogFilePattern) = true ↔
      currentLogFilePattern ∈ magicFS.readDir (Clean "lo?")) ∧
    (NewScraper "lo?").ScrapeFiles id magicFS =
      ({ dirPath := "lo?", logFilenames := ["log/syslog.1", "lo?/syslog"] }, none) ∧
    (magicFS.readDir (Clean "lo?")).map (Join (Clean "lo?")) = ["lo?/syslog"] ∧
    ¬ List.Perm ["log/syslog.1", "lo?/syslog"]
      ((magicFS.readDir (Clean "lo?")).map (Join (Clean "lo?"))) := by
  refine ⟨by decide, by decide, by decide, by decide, by decide, ?_⟩
  intro h
  have := h.length_eq
  revert this
  decide

/-- C4 (amended): for every directory path without magic runes (`*`, `?`, `[`,
backslash) whose directory has only names of the three shapes (its entry names being
distinct and `syslog` being stat-able exactly when listed), after `ScrapeFiles` on a new
scraper returns nil the logFilenames are a permutation of the paths of the files of the
directory, without duplicates, and the three listings are pairwise disjoint. -/
theorem C4_discovers_every_file_once (tbl : Char → Char) (fs : FileSystem)
    (dirPath : String) (s' : Scraper)
    (hmeta : hasMeta dirPath = false)
    (hnodup : (fs.readDir (Clean dirPath)).Nodup)
    (hstat : fs.lstat (Join (Clean dirPath) currentLogFilePattern) = true ↔
      currentLogFilePattern ∈ fs.readDir (Clean dirPath))
    (hshape : ∀ n ∈ fs.readDir (Clean dirPath),
      isCompressed n = true ∨ isRotation n = true ∨ isCurrent n = true)
    (hret : (NewScraper dirPath).ScrapeFiles tbl fs = (s', none)) :
    s'.logFilenames.Perm ((fs.readDir (Clean dirPath)).map (Join (Clean dirPath))) ∧
      s'.logFilenames.Nodup ∧
      ∃ c u k : List String,
        Glob fs (Join dirPath compressedLogFilePattern) = .ok c ∧
        Glob fs (Join dirPath uncompressedLogFilePattern) = .ok u ∧
        Glob fs (Join dirPath currentLogFilePattern) = .ok k ∧
        c.Disjoint u ∧ c.Disjoint k ∧ u.Disjoint k := by
  have hdisc := discovered_perm fs dirPath hnodup hstat hshape
  have hmapnodup : ((fs.readDir (Clean dirPath)).map (Join (Clean dirPath))).Nodup := by
    refine List.Nodup.map_on ?_ hnodup
    intro a ha b hb hab
    rw [Join_Clean_plain dirPath a (plainName_of_shape a (hshape a ha)),
      Join_Clean_plain dirPath b (plainName_of_shape b (hshape b hb))] at hab
    exact joinedPath_injective dirPath a b hab
  have hdnodup : (discovered fs dirPath).Nodup := hdisc.symm.nodup hmapnodup
  rw [ScrapeFiles_of_plain_dir tbl fs dirPath hmeta] at hret
  split_ifs at hret with h0
  · simp at hret
  · have h1 := congrArg Prod.fst hret
    simp only at h1
    have hlog : s'.logFilenames = SortFunc (cmpLogFiles tbl) (discovered fs dirPath) := by
      rw [← h1]
    have hsp := SortFunc_perm (cmpLogFiles tbl) (discovered fs dirPath)
    refine ⟨?_, ?_, ?_⟩
    · rw [hlog]; exact hsp.trans hdisc
    · rw [hlog]; exact hsp.symm.nodup hdnodup
    · refine ⟨_, _, _, Glob_compressed fs dirPath hmeta, Glob_uncompressed fs dirPath hmeta,
        Glob_current fs dirPath hmeta, ?_⟩
      unfold discovered at hdnodup
      rw [List.nodup_append] at hdnodup
      obtain ⟨hcu, _, hk⟩ := hdnodup
      rw [List.nodup_append] at hcu
      refine ⟨hcu.2.2, ?_, ?_⟩
      · intro x hx hxk
        exact hk (List.mem_append_left _ hx) hxk
      · intro x hx hxk
        exact hk (List.mem_append_right _ hx) hxk

/-- Instance of C4 (amended): the directory "var/log" of the sample log file system. -/
theorem C4_discovers_every_file_once_witness :
    List.Perm
        ["var/log/syslog.2.gz", "var/log/syslog.1.gz", "var/log/syslog.1", "var/log/syslog"]
        ((logFS.readDir (Clean "var/log")).map (Join (Clean "var/log"))) ∧
      List.Nodup
        ["var/log/syslog.2.gz", "var/log/syslog.1.gz", "var/log/syslog.1", "var/log/syslog"] ∧
      ∃ c u k : List String,
        Glob logFS (Join "var/log" compressedLogFilePattern) = .ok c ∧
        Glob logFS (Join "var/log" uncompressedLogFilePattern) = .ok u ∧
        Glob logFS (Join "var/log" currentLogFilePattern) = .ok k ∧
        c.Disjoint u ∧ c.Disjoint k ∧ u.Disjoint k :=
  C4_discovers_every_file_once id logFS "var/log"
    { dirPath := "var/log",
      logFilenames :=
        ["var/log/syslog.2.gz", "var/log/syslog.1.gz", "var/log/syslog.1", "var/log/syslog"] }
    (by decide) (by decide) (by decide) (by decide) (by decide)

/-! ## C9 -/

theorem digit_toNat (d : Char) (hd : isDigitRune d = true) : 48 ≤ d.toNat ∧ d.toNat ≤ 57 := by
  simp only [isDigitRune, Bool.and_eq_true, decide_eq_true_eq] at hd
  obtain ⟨h1, h2⟩ := hd
  rw [Char.le_def] at h1 h2
  have h1' : ('0' : Char).val.toNat ≤ d.val.toNat := h1
  have h2' : d.val.toNat ≤ ('9' : Char).val.toNat := h2
  exact ⟨h1', h2'⟩

theorem lower_digit (tbl : Char → Char) (d : Char) (hd : isDigitRune d = true) :
    unicodeToLower tbl d = d := by
  obtain ⟨h1, h2⟩ := digit_toNat d hd
  unfold unicodeToLower
  rw [if_pos (by omega)]
  have : ¬ ('A' ≤ d ∧ d ≤ 'Z') := by
    rintro ⟨h3, _⟩
    rw [Char.le_def] at h3
    have h3' : ('A' : Char).val.toNat ≤ d.val.toNat := h3
    have h65 : ('A' : Char).val.toNat = 65 := rfl
    have hd' : d.toNat = d.val.toNat := rfl
    omega
  rw [if_neg this]

theorem lower_logName (tbl : Char → Char) (d : Char) (gz : Bool)
    (hd : isDigitRune d = true) :
    (logName d gz).data.map (unicodeToLower tbl) = (logName d gz).data := by
  have key : ∀ pre post : List Char, pre.map (unicodeToLower tbl) = pre →
      post.map (unicodeToLower tbl) = post →
      (pre ++ d :: post).map (unicodeToLower tbl) = pre ++ d :: post := by
    intro pre post hp hq
    rw [List.map_append, List.map_cons, hp, hq, lower_digit tbl d hd]
  cases gz with
  | true => exact key "syslog.".data ".gz".data rfl rfl
  | false => exact key "syslog.".data [] rfl rfl

theorem lower_current (tbl : Char → Char) :
    currentLogFilePattern.data.map (unicodeToLower tbl) = currentLogFilePattern.data := rfl

/-- Between two plain names of one directory the order of the paths is the order of the
lower-cased names. -/
theorem lowerGE_Join (tbl : Char → Char) (dir a b : String) (ha : PlainName a)
    (hb : PlainName b) :
    lowerGE tbl (Join dir a) (Join dir b) ↔
      lexLt (a.data.map (unicodeToLower tbl)) (b.data.map (unicodeToLower tbl)) = false := by
  rw [Join_plain dir a ha, Join_plain dir b hb]
  unfold lowerGE ToLower joinedPath
  show lexLt ((dirPrefix dir.data ++ a.data).map _) ((dirPrefix dir.data ++ b.data).map _) = false
    ↔ _
  rw [List.map_append, List.map_append, lexLt_append_left]

theorem plainName_logName (d : Char) (gz : Bool) (hd : isDigitRune d = true) :
    PlainName (logName d gz) := by
  cases gz with
  | true => exact plainName_compressedName d hd
  | false => exact plainName_rotationName d hd

/-- The older rotation is lexicographically greater. -/
theorem lexLt_logName (a b : Char) (ga gb : Bool)
    (h : b < a ∨ (a = b ∧ ga = true ∧ gb = false)) :
    lexLt (logName b gb).data (logName a ga).data = true := by
  have hpre : ∀ (x y : List Char),
      lexLt ("syslog.".data ++ x) ("syslog.".data ++ y) = lexLt x y :=
    fun x y => lexLt_append_left _ x y
  rcases h with h | ⟨rfl, rfl, rfl⟩
  · cases ga <;> cases gb <;>
      simp only [logName, rotationName, compressedName, if_true, Bool.false_eq_true,
        if_false, hpre] <;>
      simp [lexLt, h]
  · simp only [logName, rotationName, compressedName, if_true, Bool.false_eq_true,
      if_false, hpre]
    simp [lexLt]

theorem lexLt_current_logName (d : Char) (gz : Bool) :
    lexLt currentLogFilePattern.data (logName d gz).data = true := by
  have h : ∀ t : List Char,
      lexLt currentLogFilePattern.data ("syslog".data ++ '.' :: t) = true := by
    intro t
    have := lexLt_append_left "syslog".data [] ('.' :: t)
    rw [List.append_nil] at this
    rw [show currentLogFilePattern.data = "syslog".data from rfl, this]
    rfl
  cases gz with
  | true => exact h (d :: ".gz".data)
  | false => exact h [d]

theorem pairwise_getElem? {α : Type} (R : α → α → Prop) (l : List α)
    (h : l.Pairwise R) (i j : Nat) (x y : α) (hi : l[i]? = some x) (hj : l[j]? = some y)
    (hij : i < j) : R x y := by
  obtain ⟨hi1, hi2⟩ := List.getElem?_eq_some_iff.mp hi
  obtain ⟨hj1, hj2⟩ := List.getElem?_eq_some_iff.mp hj
  have := (List.pairwise_iff_getElem.mp h) i j hi1 hj1 hij
  rw [hi2, hj2] at this
  exact this

theorem logName_of_shape (n : String) (h : isCompressed n = true ∨ isRotation n = true) :
    ∃ d gz, isDigitRune d = true ∧ n = logName d gz := by
  rcases h with h | h
  · obtain ⟨d, hd, rfl⟩ := (isCompressed_iff n).mp h
    exact ⟨d, true, hd, rfl⟩
  · obtain ⟨d, hd, rfl⟩ := (isRotation_iff n).mp h
    exact ⟨d, false, hd, rfl⟩

theorem ScrapeFiles_nil_pairwise (tbl : Char → Char) (fs : FileSystem) (s s' : Scraper)
    (h : s.ScrapeFiles tbl fs = (s', none)) : s'.logFilenames.Pairwise (lowerGE tbl) := by
  obtain ⟨c, u, k, _, _, _, _, hlog⟩ := ScrapeFiles_nil tbl fs s s' h
  rw [hlog]
  exact SortFunc_pairwise (cmpLogFiles tbl) (lowerGE tbl) (lowerGE_total tbl)
    (lowerGE_trans tbl) (cmpLogFiles_neg_iff tbl) _

theorem discovered_shape (fs : FileSystem) (dirPath : String) :
    ∀ p ∈ discovered fs dirPath, ∃ n,
      (isCompressed n = true ∨ isRotation n = true ∨ isCurrent n = true) ∧
        p = Join (Clean dirPath) n := by
  intro p hp
  unfold discovered at hp
  rcases List.mem_append.mp hp with h | h
  · rcases List.mem_append.mp h with h | h
    · obtain ⟨n, hn, rfl⟩ := List.mem_map.mp h
      exact ⟨n, Or.inl (List.mem_filter.mp hn).2, rfl⟩
    · obtain ⟨n, hn, rfl⟩ := List.mem_map.mp h
      exact ⟨n, Or.inr (Or.inl (List.mem_filter.mp hn).2), rfl⟩
  · split_ifs at h
    · have hp' : p = Join (Clean dirPath) currentLogFilePattern := by simpa using h
      exact ⟨currentLogFilePattern, Or.inr (Or.inr (by decide)), hp'⟩
    · simp at h

/-- C9: when `ScrapeFiles` returns nil, in logFilenames a rotation of a directory with a
higher digit stands before every rotation of that directory with a lower digit, and for
equal digits `syslog.N.gz` stands before `syslog.N`; when the discovered files lie in
one directory, its current file `syslog`, when present, is the last element; and the
files of a new scraper whose directory path has no magic rune do lie in one
directory. -/
theorem C9_oldest_rotation_first (tbl : Char → Char) (fs : FileSystem) (s s' : Scraper)
    (hret : s.ScrapeFiles tbl fs = (s', none)) :
    (∀ (dir : String) (i j : Nat) (a b : Char) (ga gb : Bool),
        isDigitRune a = true → isDigitRune b = true →
        s'.logFilenames[i]? = some (Join dir (logName a ga)) →
        s'.logFilenames[j]? = some (Join dir (logName b gb)) →
        (b < a ∨ (a = b ∧ ga = true ∧ gb = false)) → i < j) ∧
      (∀ dir : String,
        (∀ p ∈ s'.logFilenames, ∃ n,
          (isCompressed n = true ∨ isRotation n = true ∨ isCurrent n = true) ∧
            p = Join dir n) →
        Join dir currentLogFilePattern ∈ s'.logFilenames →
        s'.logFilenames.getLast? = some (Join dir currentLogFilePattern)) ∧
      (∀ dirPath : String, s = NewScraper dirPath → hasMeta dirPath = false →
        ∀ p ∈ s'.logFilenames, ∃ n,
          (isCompressed n = true ∨ isRotation n = true ∨ isCurrent n = true) ∧
            p = Join (Clean dirPath) n) := by
  have hpw := ScrapeFiles_nil_pairwise tbl fs s s' hret
  refine ⟨?_, ?_, ?_⟩
  · intro dir i j a b ga gb ha hb hi hj hab
    have hlt := lexLt_logName a b ga gb hab
    by_contra hij
    rcases Nat.lt_or_ge j i with hji | hji
    · have hR := pairwise_getElem? _ _ hpw j i _ _ hj hi hji
      rw [lowerGE_Join tbl dir _ _ (plainName_logName b gb hb) (plainName_logName a ga ha),
        lower_logName tbl b gb hb, lower_logName tbl a ga ha] at hR
      rw [hR] at hlt
      cases hlt
    · have hij' : i = j := by omega
      subst hij'
      rw [hi] at hj
      have hp : Join dir (logName a ga) = Join dir (logName b gb) := by
        injection hj
      rw [Join_plain dir _ (plainName_logName a ga ha),
        Join_plain dir _ (plainName_logName b gb hb)] at hp
      have hn := joinedPath_injective dir _ _ hp
      rw [hn, lexLt_irrefl] at hlt
      cases hlt
  · intro dir hone hmem
    rw [List.getLast?_eq_getElem?]
    obtain ⟨i, hi⟩ := List.mem_iff_getElem?.mp hmem
    obtain ⟨hilt, _⟩ := List.getElem?_eq_some_iff.mp hi
    rcases Nat.lt_or_ge i (s'.logFilenames.length - 1) with hlast | hlast
    · have hlen : s'.logFilenames.length - 1 < s'.logFilenames.length := by omega
      cases hz : s'.logFilenames[s'.logFilenames.length - 1]? with
      | none =>
        have := List.getElem?_eq_none_iff.mp hz
        omega
      | some z =>
        have hzmem : z ∈ s'.logFilenames := List.mem_iff_getElem?.mpr ⟨_, hz⟩
        obtain ⟨n, hshape, hzn⟩ := hone z hzmem
        have hR := pairwise_getElem? _ _ hpw i _ _ _ hi hz hlast
        rw [hzn] at hR
        rcases hshape with h | h | h
        · exfalso
          obtain ⟨d, gz, hd, rfl⟩ := logName_of_shape n (Or.inl h)
          rw [lowerGE_Join tbl dir _ _ plainName_current (plainName_logName d gz hd),
            lower_logName tbl d gz hd, lower_current, lexLt_current_logName] at hR
          cases hR
        · exfalso
          obtain ⟨d, gz, hd, rfl⟩ := logName_of_shape n (Or.inr h)
          rw [lowerGE_Join tbl dir _ _ plainName_current (plainName_logName d gz hd),
            lower_logName tbl d gz hd, lower_current, lexLt_current_logName] at hR
          cases hR
        · have hn : n = currentLogFilePattern := by simpa [isCurrent] using h
          subst hn
          rw [hzn]
    · have hieq : i = s'.logFilenames.length - 1 := by omega
      rw [← hieq, hi]
  · intro dirPath hs hmeta p hp
    subst hs
    rw [ScrapeFiles_of_plain_dir tbl fs dirPath hmeta] at hret
    split_ifs at hret with h0
    · simp at hret
    · have h1 := congrArg Prod.fst hret
      simp only at h1
      rw [← h1] at hp
      exact discovered_shape fs dirPath p
        ((SortFunc_perm (cmpLogFiles tbl) (discovered fs dirPath)).subset hp)

/-- Instance of C9: in the sorted list of "var/log" the current file is last. -/
theorem C9_oldest_rotation_first_witness :
    List.getLast?
        ["var/log/syslog.2.gz", "var/log/syslog.1.gz", "var/log/syslog.1", "var/log/syslog"] =
      some (Join (Clean "var/log") currentLogFilePattern) :=
  (C9_oldest_rotation_first id logFS (NewScraper "var/log")
    { dirPath := "var/log",
      logFilenames :=
        ["var/log/syslog.2.gz", "var/log/syslog.1.gz", "var/log/syslog.1", "var/log/syslog"] }
    (by decide)).2.1 (Clean "var/log")
    ((C9_oldest_rotation_first id logFS (NewScraper "var/log")
      { dirPath := "var/log",
        logFilenames :=
          ["var/log/syslog.2.gz", "var/log/syslog.1.gz", "var/log/syslog.1",
            "var/log/syslog"] }
      (by decide)).2.2 "var/log" rfl (by decide))
    (by decide)

/-! ## C7 -/

theorem summarize_foldl (checks : List PatternCheck) (t : Int) (es : List String) :
    checks.foldl
      (fun acc check =>
        (acc.1 + check.Count, if check.Count > 1 then acc.2 ++ [check.ErrorMessage] else acc.2))
      (t, es) =
    (t + (checks.map (·.Count)).sum,
      es ++ (checks.filter (fun c => decide (c.Count > 1))).map (·.ErrorMessage)) := by
  induction checks generalizing t es with
  | nil => simp
  | cons c cs ih =>
    rw [List.foldl_cons, ih]
    by_cases hc : c.Count > 1
    · simp [hc, add_assoc]
    · simp [hc, add_assoc]

theorem summarize_eq (checks : List PatternCheck) :
    summarize checks =
      ((checks.map (·.Count)).sum,
        (checks.filter (fun c => decide (c.Count > 1))).map (·.ErrorMessage)) := by
  unfold summarize
  rw [summarize_foldl]
  simp

theorem sum_count_set (cs : List PatternCheck) (k : Nat) (c' : PatternCheck)
    (h0 : ∀ c ∈ cs, c.Count = 0) (hk : k < cs.length) (hc' : c'.Count = 1) :
    ((cs.set k c').map (·.Count)).sum = 1 := by
  induction cs generalizing k with
  | nil => simp at hk
  | cons x xs ih =>
    have hxs : ∀ c ∈ xs, c.Count = 0 := fun c hc => h0 c (List.mem_cons_of_mem _ hc)
    have hzero : (xs.map (·.Count)).sum = 0 := by
      apply List.sum_eq_zero
      intro n hn
      obtain ⟨c, hc, rfl⟩ := List.mem_map.mp hn
      exact hxs c hc
    cases k with
    | zero => simp [hc', hzero]
    | succ k =>
      have := ih k hxs (by simpa using hk)
      rw [List.set_cons_succ, List.map_cons, List.sum_cons, this,
        h0 x (List.mem_cons_self _ _)]
      rfl

theorem map_checkLine_eq_set (cs : List PatternCheck) (k : Nat) (c0 : PatternCheck)
    (line : String) (h0 : ∀ c ∈ cs, c.Count = 0 ∧ c.ExampleLine = "")
    (hk : cs[k]? = some c0) (hm : c0.Pattern.MatchString line = true)
    (hno : ∀ c ∈ cs.eraseIdx k, c.Pattern.MatchString line = false) :
    cs.map (checkLine line) = cs.set k { c0 with Count := 1, ExampleLine := line } := by
  apply List.ext_getElem?
  intro j
  rw [List.getElem?_map, List.getElem?_set]
  obtain ⟨hklt, hkeq⟩ := List.getElem?_eq_some_iff.mp hk
  by_cases hjk : k = j
  · subst hjk
    have hmem : c0 ∈ cs := by rw [← hkeq]; exact List.getElem_mem _
    obtain ⟨hc, he⟩ := h0 c0 hmem
    rw [if_pos rfl, if_pos hklt, hk]
    simp [checkLine, hm, hc, he]
  · rw [if_neg hjk]
    cases hj : cs[j]? with
    | none => rfl
    | some c =>
      have hc : c ∈ cs.eraseIdx k :=
        List.mem_eraseIdx_iff_getElem?.mpr ⟨j, fun h => hjk h.symm, hj⟩
      simp [checkLine, hno c hc]

theorem initialChecks_some :
    initialChecks = some (initialChecks.getD []) ∧
      (initialChecks.getD []).length = 5 ∧
      (initialChecks.getD []).map (·.ErrorMessage) =
        ["Port already in use.", "Perspective transform config error.",
          "Near miss calculator error.", "GPS template execution failed.",
          "Kafka error - try restarting the VP. if the issue persists, raise with tech"] ∧
      ∀ c ∈ initialChecks.getD [], c.Count = 0 ∧ c.ExampleLine = "" := by
  refine ⟨by decide, by decide, by decide, by decide⟩

theorem summarize_set_single (cs : List PatternCheck) (k : Nat) (c' : PatternCheck)
    (h0 : ∀ c ∈ cs, c.Count = 0) (hk : k < cs.length) (hc' : c'.Count = 1) :
    summarize (cs.set k c') = (1, []) := by
  rw [summarize_eq, sum_count_set cs k c' h0 hk hc']
  have hnil : (cs.set k c').filter (fun c => decide (c.Count > 1)) = [] := by
    rw [List.filter_eq_nil_iff]
    intro c hc
    rcases List.mem_or_eq_of_mem_set hc with h | h
    · simp [h0 c h]
    · simp [h, hc']
  rw [hnil]
  rfl

theorem scanFiles_single (fs : FileSystem) (p line : String) (checks : List PatternCheck)
    (hopen : fs.openFile p = .ok ⟨[line], none⟩) :
    scanFiles fs [p] checks = checks.map (checkLine line) := by
  unfold scanFiles
  rw [List.foldl_cons, List.foldl_nil, filterFile2_fst_ok fs p _ checks hopen]
  rfl

/-- The line of the scenario matches the first of the five checks, "Port already in
use.", and none of the other four. -/
theorem scenarioLine_matches :
    ∃ c0, (initialChecks.getD [])[0]? = some c0 ∧ c0.ErrorMessage = "Port already in use." ∧
      c0.Pattern.MatchString scenarioLine = true ∧
      ∀ c ∈ (initialChecks.getD []).eraseIdx 0, c.Pattern.MatchString scenarioLine = false :=
  ⟨{ Pattern := (Compile multivpRegex).getD ⟨[]⟩, ErrorMessage := "Port already in use.",
     Count := 0, ExampleLine := "" }, by decide, rfl, by decide, by decide⟩

/-- C7, as stated, fails: the directory "lo?" holds the single file "syslog", whose only
line is the line of the scenario, but the directory path is read as a pattern, which the
sibling directory "log" matches as well; its file "syslog.1" (same line) is scanned
too, and the run ends with Count 2 for the "Port already in use." check, a total of 2 and
that message in the error-message list. -/
theorem C7_counterexample :
    magicScenarioFS.readDir (Clean "lo?") = ["syslog"] ∧
    magicScenarioFS.openFile (Join (Clean "lo?") currentLogFilePattern) =
      .ok ⟨[scenarioLine], none⟩ ∧
    ((NewScraper "lo?").ScrapeFiles id magicScenarioFS).1.logFilenames =
      ["log/syslog.1", "lo?/syslog"] ∧
    main id magicScenarioFS "lo?" =
      .ok { checks := (initialChecks.getD []).set 0
              { Pattern := (Compile multivpRegex).getD ⟨[]⟩,
                ErrorMessage := "Port already in use.", Count := 2,
                ExampleLine := scenarioLine },
            totalMatches := 2, totalErrors := ["Port already in use."] } :=
  ⟨rfl, rfl, by decide, rfl⟩

/-- C7 (amended): the five patterns compile, into five checks with Count = 0 and an empty
ExampleLine; for a directory path without magic runes whose directory holds the single
file "syslog", whose only line matches exactly one of the five checks, `main` ends with
Count = 1 and that line as ExampleLine for that check, the other checks as they started
(Count = 0), a total of 1 and an empty error-message list; the line of the scenario
matches the "Port already in use." check and no other; and in every run the total is the
sum of the Counts and the error messages are the ErrorMessages, in check order, of the
checks with Count > 1. -/
theorem C7_end_to_end_report (tbl : Char → Char) (fs : FileSystem) (dirPath : String) :
    (∃ checks0, initialChecks = some checks0 ∧ checks0.length = 5 ∧
        ∀ c ∈ checks0, c.Count = 0 ∧ c.ExampleLine = "") ∧
    (∀ (checks0 : List PatternCheck) (line : String) (k : Nat) (c0 : PatternCheck),
        initialChecks = some checks0 →
        hasMeta dirPath = false →
        fs.readDir (Clean dirPath) = ["syslog"] →
        fs.lstat (Join (Clean dirPath) currentLogFilePattern) = true →
        fs.openFile (Join (Clean dirPath) currentLogFilePattern) = .ok ⟨[line], none⟩ →
        checks0[k]? = some c0 →
        c0.Pattern.MatchString line = true →
        (∀ c ∈ checks0.eraseIdx k, c.Pattern.MatchString line = false) →
        main tbl fs dirPath =
          .ok { checks := checks0.set k { c0 with Count := 1, ExampleLine := line },
                totalMatches := 1, totalErrors := [] }) ∧
    (∀ checks0 : List PatternCheck, initialChecks = some checks0 →
        ∃ c0, checks0[0]? = some c0 ∧ c0.ErrorMessage = "Port already in use." ∧
          c0.Pattern.MatchString scenarioLine = true ∧
          ∀ c ∈ checks0.eraseIdx 0, c.Pattern.MatchString scenarioLine = false) ∧
    (∀ r : Report, main tbl fs dirPath = .ok r →
        r.totalMatches = (r.checks.map (·.Count)).sum ∧
          r.totalErrors =
            (r.checks.filter (fun c => decide (c.Count > 1))).map (·.ErrorMessage)) := by
  refine ⟨⟨_, initialChecks_some.1, initialChecks_some.2.1, initialChecks_some.2.2.2⟩,
    ?_, ?_, ?_⟩
  · intro checks0 line k c0 hinit hmeta hdir hstat hopen hk hm hno
    have hcs : checks0 = initialChecks.getD [] :=
      Option.some.inj (hinit.symm.trans initialChecks_some.1)
    have h0 : ∀ c ∈ checks0, c.Count = 0 ∧ c.ExampleLine = "" := by
      rw [hcs]; exact initialChecks_some.2.2.2
    obtain ⟨hklt, _⟩ := List.getElem?_eq_some_iff.mp hk
    have hd : discovered fs dirPath = [Join (Clean dirPath) currentLogFilePattern] := by
      unfold discovered
      rw [hdir, hstat]
      rfl
    have hret : (NewScraper dirPath).ScrapeFiles tbl fs =
        ({ dirPath := dirPath,
           logFilenames := [Join (Clean dirPath) currentLogFilePattern] }, none) := by
      rw [ScrapeFiles_of_plain_dir tbl fs dirPath hmeta, hd]
      rfl
    unfold main
    rw [hinit]
    simp only
    rw [hret]
    simp only
    rw [scanFiles_single fs _ line checks0 hopen,
      map_checkLine_eq_set checks0 k c0 line h0 hk hm hno,
      summarize_set_single checks0 k _ (fun c hc => (h0 c hc).1) hklt rfl]
  · intro checks0 hinit
    have hcs : checks0 = initialChecks.getD [] :=
      Option.some.inj (hinit.symm.trans initialChecks_some.1)
    rw [hcs]
    exact scenarioLine_matches
  · intro r hr
    unfold main at hr
    cases hinit : initialChecks with
    | none => rw [hinit] at hr; simp at hr
    | some checks =>
      rw [hinit] at hr
      simp only at hr
      cases hs : (NewScraper dirPath).ScrapeFiles tbl fs with
      | mk s' e =>
        rw [hs] at hr
        cases e with
        | some err => simp at hr
        | none =>
          simp only at hr
          have hr' := Except.ok.inj hr
          rw [← hr']
          simp only
          rw [summarize_eq]
          exact ⟨rfl, rfl⟩

/-- Instance of C7 (amended): the end-to-end scenario of the directory "var/log". -/
theorem C7_end_to_end_report_witness :
    main id scenarioFS "var/log" =
      .ok { checks := (initialChecks.getD []).set 0
              { Pattern := (Compile multivpRegex).getD ⟨[]⟩,
                ErrorMessage := "Port already in use.", Count := 1,
                ExampleLine := scenarioLine },
            totalMatches := 1, totalErrors := [] } :=
  (C7_end_to_end_report id scenarioFS "var/log").2.1 (initialChecks.getD [])
    scenarioLine 0
    { Pattern := (Compile multivpRegex).getD ⟨[]⟩, ErrorMessage := "Port already in use.",
      Count := 0, ExampleLine := "" }
    (by decide) (by decide) (by decide) (by decide) rfl (by decide) (by decide) (by decide)

end SyslogScraper
